import Mathlib

/-!
joseki: RDF term algebra, list graph, BGP node, N-Triples and Turtle scanners.

A shallow embedding of `rdf/triple.go`, `graph/listGraph.go`,
`sparql/bgpNode.go`, `parser/NTParser.go` and `parser/TurtleParser.go`, followed
by theorems about the embedded functions. The statement interpreter that
`TurtleParser.Read` calls on every token is not among the sources: it is
modelled from §4.4 of the specification.

Conventions of the embedding:

* a Go `(bool, error)` result is a pair `Bool × Option String`; the second
  component is `none` for a `nil` error and `some msg` for `errors.New(msg)`;
* the `Node` interface is the sum of the three types that implement it in
  package `rdf`; a method call on a `Node` dispatches on the variant; where a
  variable of type `Node` can be nil it is an `Option Node`;
* a channel is the list of the values sent on it before it is closed, in the
  order of the sends;
* a Go map is the list of its entries, read in the order in which a `range`
  loop enumerates them;
* a runtime panic (index or slice out of range, method call on a nil
  interface) is an explicit outcome: `none`, or `flow.panic_` in the scanner.
-/

namespace Joseki

/-! ## rdf/triple.go -/

/-- The `URI` struct. -/
structure URI where
  Value : String
  deriving DecidableEq, Repr

/-- The `Literal` struct. -/
structure Literal where
  Value : String
  deriving DecidableEq, Repr

/-- The `BlankNode` struct. -/
structure BlankNode where
  Variable : String
  deriving DecidableEq, Repr

/-- The `Node` interface: a value of one of its three implementing types. -/
inductive Node where
  | uri (u : URI)
  | literal (l : Literal)
  | blank (b : BlankNode)
  deriving DecidableEq, Repr

/-- The `Triple` struct. -/
structure Triple where
  Subject : Node
  Predicate : Node
  Object : Node
  deriving DecidableEq, Repr

/-- The type assertion `n.(URI)`: the value and the `ok` flag. -/
def Node.asURI : Node → URI × Bool
  | .uri u => (u, true)
  | _ => (⟨""⟩, false)

/-- The type assertion `n.(Literal)`. -/
def Node.asLiteral : Node → Literal × Bool
  | .literal l => (l, true)
  | _ => (⟨""⟩, false)

/-- The type assertion `n.(BlankNode)`. -/
def Node.asBlankNode : Node → BlankNode × Bool
  | .blank b => (b, true)
  | _ => (⟨""⟩, false)

/-- `func (u URI) Equals(n Node) (bool, error)`. -/
def URI.Equals (u : URI) (n : Node) : Bool × Option String :=
  let (other, ok) := n.asURI
  if ok then
    (u.Value == other.Value, none)
  else
    (false, some "Error : mismatch type, can only compare two URIs")

/-- `func (u URI) Equivalent(n Node) (bool, error)`. -/
def URI.Equivalent (u : URI) (n : Node) : Bool × Option String :=
  let (equality, err) := u.Equals n
  if err != none then
    let (_, ok) := n.asBlankNode
    if ok then
      (true, none)
    else
      (false, some "Error : can only compare a URI with another URI or a Blank Node")
  else
    (equality, none)

/-- `func NewURI(value string) URI`. -/
def NewURI (value : String) : URI := ⟨value⟩

/-- `func (l Literal) Equals(n Node) (bool, error)`. -/
def Literal.Equals (l : Literal) (n : Node) : Bool × Option String :=
  let (other, ok) := n.asLiteral
  if ok then
    (l.Value == other.Value, none)
  else
    (false, some "Error : mismatch type, can only compare two Literals")

/-- `func (l Literal) Equivalent(n Node) (bool, error)`. -/
def Literal.Equivalent (l : Literal) (n : Node) : Bool × Option String :=
  let (equality, err) := l.Equals n
  if err != none then
    let (_, ok) := n.asBlankNode
    if ok then
      (true, none)
    else
      (false, some "Error : can only compare a Literal with another Literal or a Blank Node")
  else
    (equality, none)

/-- `func NewLiteral(value string) Literal`. -/
def NewLiteral (value : String) : Literal := ⟨value⟩

/-- `func (b BlankNode) Equals(n Node) (bool, error)`. -/
def BlankNode.Equals (b : BlankNode) (n : Node) : Bool × Option String :=
  let (other, ok) := n.asBlankNode
  if ok then
    (b.Variable == other.Variable, none)
  else
    (false, some "Error : mismatch type, can only compare two Blank Nodes")

/-- `func (b BlankNode) Equivalent(n Node) (bool, error)`: always `true, nil`. -/
def BlankNode.Equivalent (_b : BlankNode) (_n : Node) : Bool × Option String :=
  (true, none)

/-- `func NewBlankNode(variable string) BlankNode`. -/
def NewBlankNode (variable_ : String) : BlankNode := ⟨variable_⟩

/-- Interface call `a.Equals(n)`: dispatch on the dynamic type of `a`. -/
def Node.Equals : Node → Node → Bool × Option String
  | .uri u, n => u.Equals n
  | .literal l, n => l.Equals n
  | .blank b, n => b.Equals n

/-- Interface call `a.Equivalent(n)`: dispatch on the dynamic type of `a`. -/
def Node.Equivalent : Node → Node → Bool × Option String
  | .uri u, n => u.Equivalent n
  | .literal l, n => l.Equivalent n
  | .blank b, n => b.Equivalent n

/-- `func (t Triple) Equals(other Triple) (bool, error)`. -/
def Triple.Equals (t other : Triple) : Bool × Option String :=
  let (test_subj, err) := t.Subject.Equals other.Subject
  if err != none then (false, err) else
  let (test_pred, err) := t.Predicate.Equals other.Predicate
  if err != none then (false, err) else
  let (test_obj, err) := t.Object.Equals other.Object
  if err != none then (false, err) else
  (test_subj && test_pred && test_obj, none)

/-- `func (t Triple) Equivalent(other Triple) (bool, error)`. -/
def Triple.Equivalent (t other : Triple) : Bool × Option String :=
  let (test_subj, err) := t.Subject.Equivalent other.Subject
  if err != none then (false, err) else
  let (test_pred, err) := t.Predicate.Equivalent other.Predicate
  if err != none then (false, err) else
  let (test_obj, err) := t.Object.Equivalent other.Object
  if err != none then (false, err) else
  (test_subj && test_pred && test_obj, none)

/-- `func NewTriple(subject Node, predicate Node, object Node) Triple`. -/
def NewTriple (subject predicate object : Node) : Triple :=
  ⟨subject, predicate, object⟩

/-! ### Vocabulary used to state the properties of the term algebra -/

/-- Both nodes have the same dynamic type. -/
def Node.sameVariant : Node → Node → Bool
  | .uri _, .uri _ => true
  | .literal _, .literal _ => true
  | .blank _, .blank _ => true
  | _, _ => false

/-- The node is a `BlankNode`. -/
def Node.isBlank : Node → Bool
  | .blank _ => true
  | _ => false

/-- The single string field of a node: `Value` of a `URI` or `Literal`,
`Variable` of a `BlankNode`. -/
def Node.field : Node → String
  | .uri u => u.Value
  | .literal l => l.Value
  | .blank b => b.Variable

/-! ## graph/listGraph.go -/

/-- The `ListGraph` struct: a slice of triples. -/
structure ListGraph where
  triples : List Triple
  deriving DecidableEq, Repr

/-- `func NewListGraph() ListGraph`. -/
def NewListGraph : ListGraph := ⟨[]⟩

/-- `func (g *ListGraph) Add(triple rdf.Triple)`: the graph after the call. -/
def ListGraph.Add (g : ListGraph) (triple : Triple) : ListGraph :=
  ⟨g.triples ++ [triple]⟩

/-- The `for _, triple := range g.triples` loop of `Filter`: `results` holds the
triples sent on the channel so far. -/
def ListGraph.filterLoop (refTriple : Triple) : List Triple → List Triple → List Triple
  | [], results => results
  | triple :: rest, results =>
    let (test, err) := refTriple.Equivalent triple
    if (err == none) && test then
      ListGraph.filterLoop refTriple rest (results ++ [triple])
    else
      ListGraph.filterLoop refTriple rest results

/-- `func (g *ListGraph) Filter(subject, predicate, object rdf.Node) chan rdf.Triple`:
the sequence of triples received from the returned channel until it is closed. -/
def ListGraph.Filter (g : ListGraph) (subject predicate object : Node) : List Triple :=
  let results : List Triple := []
  let refTriple := NewTriple subject predicate object
  ListGraph.filterLoop refTriple g.triples results

/-- `Filter(nil, nil, nil)` on a `*ListGraph`: the reference triple holds three
nil interface values, and `refTriple.Equivalent(triple)` starts with the method
call `t.Subject.Equivalent(...)` on the nil subject, a runtime panic (`none`) at
the first stored triple. With nothing stored the loop body never runs and the
channel is closed empty. -/
def ListGraph.FilterNil (g : ListGraph) : Option (List Triple) :=
  match g.triples with
  | [] => some []
  | _ :: _ => none

/-- Modelled from the spec: the `graph.Graph` interface, whose declaration is
not among the sources. Of its methods `bgpNode` calls `Filter` only: "`Filter(subject,
predicate, object: Node) → lazy sequence of Triple`". The parameters are interface
values and the one call with nil nodes that `bgpNode` can make is
`Filter(nil, nil, nil)`: `FilterNil` is its outcome, `none` when the call ends in a
runtime panic. -/
structure Graph where
  Filter : Node → Node → Node → List Triple
  FilterNil : Option (List Triple)

/-- A `*ListGraph` used as a `graph.Graph`. -/
def ListGraph.toGraph (g : ListGraph) : Graph := ⟨g.Filter, g.FilterNil⟩

/-! ## sparql/bgpNode.go -/

/-- Modelled from the spec: `rdf.BindingsGroup`, whose declaration is not among
the sources: a "mapping from variable name to Node (keys unique, order
irrelevant)". Its field `Bindings` is a Go map from `string` to `Node`, held here
as the list of its entries. -/
structure BindingsGroup where
  Bindings : List (String × Node)
  deriving DecidableEq, Repr

/-- Modelled from the spec: `rdf.NewBindingsGroup()`, "created empty per pattern
match". -/
def NewBindingsGroup : BindingsGroup := ⟨[]⟩

/-- Go map assignment `m[key] = value` on the list of entries: the entry with
that key is replaced, or a new entry is added when there is none. -/
def mapAssign : List (String × Node) → String → Node → List (String × Node)
  | [], key, value => [(key, value)]
  | (k, v) :: rest, key, value =>
    if k == key then (key, value) :: rest else (k, v) :: mapAssign rest key value

/-- Go map read `m[key]` with the comma-ok form, as an option. -/
def mapLookup : List (String × Node) → String → Option Node
  | [], _ => none
  | (k, v) :: rest, key => if k == key then some v else mapLookup rest key

/-- The statement `group.Bindings[key] = value`. -/
def BindingsGroup.set (group : BindingsGroup) (key : String) (value : Node) : BindingsGroup :=
  ⟨mapAssign group.Bindings key value⟩

/-- The read `group.Bindings[key]`. -/
def BindingsGroup.get (group : BindingsGroup) (key : String) : Option Node :=
  mapLookup group.Bindings key

/-- The `bgpNode` struct. -/
structure bgpNode where
  pattern : Triple
  graph : Graph

/-- `func newBgpNode(pattern rdf.Triple, graph graph.Graph) *bgpNode`. -/
def newBgpNode (pattern : Triple) (graph : Graph) : bgpNode := ⟨pattern, graph⟩

/-- The body of the `for triple := range n.graph.Filter(...)` loop of `execute`:
the group sent on `out` for one matched triple. -/
def bgpNode.executeBody (subject predicate object : BlankNode)
    (freeSubject freePredicate freeObject : Bool) (triple : Triple) : BindingsGroup :=
  let group := NewBindingsGroup
  let group := if freeSubject then group.set subject.Variable triple.Subject else group
  let group := if freePredicate then group.set predicate.Variable triple.Predicate else group
  let group := if freeObject then group.set object.Variable triple.Object else group
  group

/-- The loop of `execute` over the triples received from `Filter`: `out` holds
the groups sent so far. -/
def bgpNode.executeLoop (subject predicate object : BlankNode)
    (freeSubject freePredicate freeObject : Bool) :
    List Triple → List BindingsGroup → List BindingsGroup
  | [], out => out
  | triple :: rest, out =>
    bgpNode.executeLoop subject predicate object freeSubject freePredicate freeObject rest
      (out ++ [bgpNode.executeBody subject predicate object
        freeSubject freePredicate freeObject triple])

/-- `func (n *bgpNode) execute() chan rdf.BindingsGroup`: the sequence of groups
received from the returned channel until it is closed. -/
def bgpNode.execute (n : bgpNode) : List BindingsGroup :=
  let (subject, freeSubject) := n.pattern.Subject.asBlankNode
  let (predicate, freePredicate) := n.pattern.Predicate.asBlankNode
  let (object, freeObject) := n.pattern.Object.asBlankNode
  bgpNode.executeLoop subject predicate object freeSubject freePredicate freeObject
    (n.graph.Filter n.pattern.Subject n.pattern.Predicate n.pattern.Object) []

/-- Modelled from the spec: `BindingsGroup.Clone()`, an "independent copy, no
shared mutable state across clones". -/
def BindingsGroup.Clone (group : BindingsGroup) : BindingsGroup := ⟨group.Bindings⟩

/-- The variables assigned by the `range group.Bindings` loop of `executeWith`:
the three query nodes, nil (`none`) until the first iteration, and the three
flags. -/
structure queryState where
  querySubj : Option Node
  queryPred : Option Node
  queryObj : Option Node
  freeSubject : Bool
  freePredicate : Bool
  freeObject : Bool
  deriving DecidableEq, Repr

/-- One iteration of the `range group.Bindings` loop of `executeWith`. -/
def bgpNode.completeBody (n : bgpNode) (subject predicate object : BlankNode)
    (bindingKey : String) (bindingValue : Node) (st : queryState) : queryState :=
  let (querySubj, freeSubject) :=
    if st.freeSubject && subject.Variable == bindingKey then
      (some bindingValue, false)
    else
      (some n.pattern.Subject, st.freeSubject)
  let (queryPred, freePredicate) :=
    if st.freePredicate && predicate.Variable == bindingKey then
      (some bindingValue, false)
    else
      (some n.pattern.Predicate, st.freePredicate)
  let (queryObj, freeObject) :=
    if st.freeObject && object.Variable == bindingKey then
      (some bindingValue, false)
    else
      (some n.pattern.Object, st.freeObject)
  ⟨querySubj, queryPred, queryObj, freeSubject, freePredicate, freeObject⟩

/-- The `for bindingKey, bindingValue := range group.Bindings` loop of
`executeWith`, run over the entries in the order in which the map enumerates
them. -/
def bgpNode.completeLoop (n : bgpNode) (subject predicate object : BlankNode) :
    List (String × Node) → queryState → queryState
  | [], st => st
  | (bindingKey, bindingValue) :: rest, st =>
    bgpNode.completeLoop n subject predicate object rest
      (bgpNode.completeBody n subject predicate object bindingKey bindingValue st)

/-- The body of the `for triple := range n.graph.Filter(...)` loop of
`executeWith`: the group sent on `out` for one matched triple. -/
def bgpNode.executeWithBody (group : BindingsGroup) (subject predicate object : BlankNode)
    (freeSubject freePredicate freeObject : Bool) (triple : Triple) : BindingsGroup :=
  let newGroup := group.Clone
  let newGroup :=
    if freeSubject then newGroup.set subject.Variable triple.Subject else newGroup
  let newGroup :=
    if freePredicate then newGroup.set predicate.Variable triple.Predicate else newGroup
  let newGroup :=
    if freeObject then newGroup.set object.Variable triple.Object else newGroup
  newGroup

/-- The loop of `executeWith` over the triples received from `Filter`: `out`
holds the groups sent so far. -/
def bgpNode.executeWithLoop (group : BindingsGroup) (subject predicate object : BlankNode)
    (freeSubject freePredicate freeObject : Bool) :
    List Triple → List BindingsGroup → List BindingsGroup
  | [], out => out
  | triple :: rest, out =>
    bgpNode.executeWithLoop group subject predicate object
      freeSubject freePredicate freeObject rest
      (out ++ [bgpNode.executeWithBody group subject predicate object
        freeSubject freePredicate freeObject triple])

/-- `func (n *bgpNode) executeWith(group rdf.BindingsGroup) chan rdf.BindingsGroup`:
the sequence of groups received from the returned channel until it is closed, or
`none` when the call of `Filter` ends in a runtime panic. The list
`group.Bindings` is read in the order in which the map is enumerated. Every
iteration assigns the three query nodes, so after the loop they are all nil
(no entry) or all set. -/
def bgpNode.executeWith (n : bgpNode) (group : BindingsGroup) : Option (List BindingsGroup) :=
  let (subject, freeSubject) := n.pattern.Subject.asBlankNode
  let (predicate, freePredicate) := n.pattern.Predicate.asBlankNode
  let (object, freeObject) := n.pattern.Object.asBlankNode
  let st := bgpNode.completeLoop n subject predicate object group.Bindings
    ⟨none, none, none, freeSubject, freePredicate, freeObject⟩
  match st.querySubj, st.queryPred, st.queryObj with
  | some querySubj, some queryPred, some queryObj =>
    some (bgpNode.executeWithLoop group subject predicate object
      st.freeSubject st.freePredicate st.freeObject
      (n.graph.Filter querySubj queryPred queryObj) [])
  | _, _, _ =>
    match n.graph.FilterNil with
    | some triples =>
      some (bgpNode.executeWithLoop group subject predicate object
        st.freeSubject st.freePredicate st.freeObject triples [])
    | none => none

/-! ### Vocabulary used to state the properties of the graph and of the BGP node -/

/-- None of the three nodes of the triple is a BlankNode. -/
def Triple.ground (t : Triple) : Bool :=
  !t.Subject.isBlank && !t.Predicate.isBlank && !t.Object.isBlank

/-- The two nodes are not BlankNodes carrying the same variable name. -/
def Node.distinctVar : Node → Node → Bool
  | .blank a, .blank b => a.Variable != b.Variable
  | _, _ => true

/-- The variables at the BlankNode positions of the pattern are pairwise
distinct. -/
def Triple.distinctVars (p : Triple) : Bool :=
  p.Subject.distinctVar p.Predicate && p.Subject.distinctVar p.Object &&
    p.Predicate.distinctVar p.Object

/-- The graph of the running example: `(<Tom>, <age>, "22")`, `(<Ann>, <age>, "30")`. -/
def tomAnnGraph : ListGraph :=
  (NewListGraph.Add
    (NewTriple (.uri (NewURI "Tom")) (.uri (NewURI "age")) (.literal (NewLiteral "22")))).Add
    (NewTriple (.uri (NewURI "Ann")) (.uri (NewURI "age")) (.literal (NewLiteral "30")))

/-- The pattern of the running example: `(?x, <age>, ?y)`. -/
def agePattern : Triple :=
  NewTriple (.blank (NewBlankNode "x")) (.uri (NewURI "age")) (.blank (NewBlankNode "y"))

/-- The group holds, for the matched triple `t`, exactly the bindings of the
pattern `p`: every variable name at a BlankNode position of `p` is bound to the
term of `t` at that position, and no other key is present. -/
def bindsPattern (p t : Triple) (group : BindingsGroup) : Prop :=
  ∀ k : String,
    (p.Subject = .blank ⟨k⟩ → group.get k = some t.Subject) ∧
    (p.Predicate = .blank ⟨k⟩ → group.get k = some t.Predicate) ∧
    (p.Object = .blank ⟨k⟩ → group.get k = some t.Object) ∧
    (p.Subject ≠ .blank ⟨k⟩ → p.Predicate ≠ .blank ⟨k⟩ → p.Object ≠ .blank ⟨k⟩ →
      group.get k = none)

/-! ## Go strings

A Go string is a sequence of bytes. It is embedded as the `String` whose
characters are those bytes, so that `len`, indexing and slicing count
characters. A `none` result stands for the runtime panic of an index or a slice
out of range. -/

/-- `len(s)`. -/
def goLen (s : String) : Int := s.data.length

/-- `s[i]`: the byte at index `i`, or `none` when the index is out of range. -/
def goIndex (s : String) (i : Int) : Option Char :=
  if 0 ≤ i then s.data[i.toNat]? else none

/-- `s[lo:hi]`: `none` unless `0 ≤ lo ≤ hi ≤ len(s)`. -/
def goSlice (s : String) (lo hi : Int) : Option String :=
  if 0 ≤ lo ∧ lo ≤ hi ∧ hi ≤ goLen s then
    some ⟨(s.data.drop lo.toNat).take (hi - lo).toNat⟩
  else
    none

/-- `string(b)` for a byte `b`: the UTF-8 encoding of the code point `b`, one
byte below `0x80` and two bytes from `0x80` on. -/
def byteToString (b : Char) : String :=
  if b.toNat < 128 then String.singleton b
  else ⟨[Char.ofNat (192 + b.toNat / 64), Char.ofNat (128 + b.toNat % 64)]⟩

/-- `string(s[i]) == lit`. -/
def byteIs (s : String) (i : Int) (lit : String) : Option Bool :=
  (goIndex s i).map (fun b => byteToString b == lit)

/-- `a && b` when the evaluation of an operand can panic: `b` is not evaluated
when `a` is false. -/
def goAnd (a b : Option Bool) : Option Bool :=
  match a with
  | none => none
  | some false => some false
  | some true => b

/-- `a || b` when the evaluation of an operand can panic: `b` is not evaluated
when `a` is true. -/
def goOr (a b : Option Bool) : Option Bool :=
  match a with
  | none => none
  | some true => some true
  | some false => b

/-- `if cond { a } else { b }` when the evaluation of `cond` can panic. In a
`switch` without tag the cases are such conditions, tried in order. -/
def goIf {α : Type} (cond : Option Bool) (a b : Option α) : Option α :=
  match cond with
  | none => none
  | some true => a
  | some false => b

/-- The search loop of `strings.Index`: the index of the first position of the
text, counted from `i`, at which `substr` occurs, or `-1`. -/
def stringsIndexFrom (substr : List Char) : List Char → Nat → Int
  | [], i => if substr.isEmpty then (i : Int) else -1
  | c :: cs, i =>
    if substr.isPrefixOf (c :: cs) then (i : Int) else stringsIndexFrom substr cs (i + 1)

/-- `strings.Index(s, substr)`: the index of the first occurrence of `substr`
in `s`, or `-1` when there is none. -/
def stringsIndex (s substr : String) : Int := stringsIndexFrom substr.data s.data 0

/-! ## parser/NTParser.go -/

/-- `func parseNode(elt string) (rdf.Node, error)`. The outer `none` is a runtime
panic; otherwise the pair holds the node (`none` for a nil `Node`) and the
error. -/
def parseNode (elt : String) : Option (Option Node × Option String) :=
  goIf (goAnd (byteIs elt 0 "<") (byteIs elt (goLen elt - 1) ">"))
    ((goSlice elt 1 (goLen elt - 2)).map (fun v => (some (.uri (NewURI v)), none))) <|
  goIf (goAnd (byteIs elt 0 "\"") (byteIs elt (goLen elt - 1) "\""))
    ((goSlice elt 1 (goLen elt - 2)).map (fun v => (some (.literal (NewLiteral v)), none))) <|
  goIf (goAnd (byteIs elt 0 "_") (byteIs elt 1 ":"))
    ((goSlice elt 2 (goLen elt)).map (fun v => (some (.blank (NewBlankNode v)), none))) <|
  some (none, some ("Error : cannot parse " ++ elt ++ " into a RDF Node"))

/-! ## parser/TurtleParser.go -/

/-- Modelled from the spec: the token type `rdfToken` and its constructors
`newToken...`, which are not among the sources: a "tagged variant {URI, Literal,
BlankNode/Variable, PrefixedURI, PrefixDecl, Lang, Datatype, Separator, End,
Illegal}". Each token records the arguments that `scanTurtle` passes to its
constructor. -/
inductive rdfToken where
  | newTokenEnd (line row : Nat)
  | newTokenSep (value : String) (line row : Nat)
  | newTokenURI (value : String)
  | newTokenLiteral (value : String)
  | newTokenType (value : String) (line row : Nat)
  | newTokenLang (value : String) (line row : Nat)
  | newTokenBlankNode (value : String)
  | newTokenPrefixedURI (value : String) (line row : Nat)
  | newTokenIllegal (msg : String) (line row : Nat)
  | newTokenPrefix (name value : String)
  deriving DecidableEq, Repr

/-- The variables of the goroutine of `scanTurtle` that live across lines, and
the tokens sent on `out` so far. -/
structure scanState where
  out : List rdfToken
  prefixName : String
  prefixValue : String
  scanPrefixesDone : Bool
  lineNumber : Nat
  deriving DecidableEq, Repr

/-- The statement `out <- token`. -/
def scanState.send (st : scanState) (token : rdfToken) : scanState :=
  ⟨st.out ++ [token], st.prefixName, st.prefixValue, st.scanPrefixesDone, st.lineNumber⟩

/-- The assignment of `prefixName`. -/
def scanState.setPrefixName (st : scanState) (name : String) : scanState :=
  ⟨st.out, name, st.prefixValue, st.scanPrefixesDone, st.lineNumber⟩

/-- The assignment of `prefixValue`. -/
def scanState.setPrefixValue (st : scanState) (value : String) : scanState :=
  ⟨st.out, st.prefixName, value, st.scanPrefixesDone, st.lineNumber⟩

/-- The assignment of `scanPrefixesDone`. -/
def scanState.setScanPrefixesDone (st : scanState) (done : Bool) : scanState :=
  ⟨st.out, st.prefixName, st.prefixValue, done, st.lineNumber⟩

/-- The statement `lineNumber++`. -/
def scanState.nextLine (st : scanState) : scanState :=
  ⟨st.out, st.prefixName, st.prefixValue, st.scanPrefixesDone, st.lineNumber + 1⟩

/-- How the processing of one element, or of one line, ends: it falls through
to the statement after it (`next`), or leaves by `continue`, `break` or `return`,
or by a runtime panic. -/
inductive flow where
  | next
  | continue_
  | break_
  | return_
  | panic_
  deriving DecidableEq, Repr

/-- The `switch` of `scanTurtle` taken while a prefix declaration is scanned
(`!scanPrefixesDone`), for one element of the line. -/
def scanPrefixElt (st : scanState) (rowNumber : Nat) (elt : String) : flow × scanState :=
  if elt == "@prefix" || elt == ":" then
    (.continue_, st)
  else if elt == "." then
    (.next, ((st.send (.newTokenPrefix st.prefixName st.prefixValue)).setPrefixName
      "").setPrefixValue "")
  else if st.prefixName == "" then
    match byteIs elt (goLen elt - 1) ":" with
    | none => (.panic_, st)
    | some false =>
      (.return_, st.send (.newTokenIllegal ("Unexpected token : " ++ elt) st.lineNumber rowNumber))
    | some true =>
      match goSlice elt 0 (goLen elt - 1) with
      | none => (.panic_, st)
      | some name => (.next, st.setPrefixName name)
  else if st.prefixValue == "" then
    match goAnd ((byteIs elt 0 "<").map not) ((byteIs elt (goLen elt - 1) ">").map not) with
    | none => (.panic_, st)
    | some true =>
      (.return_, st.send (.newTokenIllegal ("Unexpected token : " ++ elt) st.lineNumber rowNumber))
    | some false =>
      match goSlice elt 1 (goLen elt - 1) with
      | none => (.panic_, st)
      | some value => (.next, st.setPrefixValue value)
  else
    (.next, st.send (.newTokenIllegal
      ("Unexpected token when scanning '" ++ elt ++ "', expected a prefix definition")
      st.lineNumber rowNumber))

/-- The `switch` of `scanTurtle` taken outside a prefix declaration
(`scanPrefixesDone`): the token sent for one element, or `none` for a runtime
panic. -/
def scanWord (elt : String) (lineNumber rowNumber : Nat) : Option rdfToken :=
  if elt == "." || elt == "]" then
    some (.newTokenEnd lineNumber rowNumber)
  else if elt == ";" || elt == "," || elt == "[" then
    some (.newTokenSep elt lineNumber rowNumber)
  else
    goIf (goAnd (byteIs elt 0 "<") (byteIs elt (goLen elt - 1) ">"))
      ((goSlice elt 1 (goLen elt - 1)).map .newTokenURI) <|
    goIf (goOr (goAnd (byteIs elt 0 "\"") (byteIs elt (goLen elt - 1) "\""))
        (goAnd (byteIs elt 0 "'") (byteIs elt (goLen elt - 1) "'")))
      ((goSlice elt 1 (goLen elt - 1)).map .newTokenLiteral) <|
    goIf (goAnd (some (decide (goLen elt ≥ 2))) ((goSlice elt 0 2).map (fun p => p == "^^")))
      ((goSlice elt 2 (goLen elt)).map (fun v => .newTokenType v lineNumber rowNumber)) <|
    goIf (byteIs elt 0 "@")
      ((goSlice elt 1 (goLen elt)).map (fun v => .newTokenLang v lineNumber rowNumber)) <|
    goIf (goAnd (byteIs elt 0 "_") (byteIs elt 1 ":"))
      ((goSlice elt 2 (goLen elt)).map .newTokenBlankNode) <|
    goIf (byteIs elt 0 "?")
      ((goSlice elt 1 (goLen elt)).map .newTokenBlankNode) <|
    if stringsIndex elt ":" > -1 then
      some (.newTokenPrefixedURI elt lineNumber rowNumber)
    else
      some (.newTokenIllegal ("Unexpected token when scanning '" ++ elt ++ "'")
        lineNumber rowNumber)

/-- The body of the `for _, elt := range line` loop of `scanTurtle`, up to the
statement `rowNumber += len(elt) + 1` excluded. -/
def scanElt (st : scanState) (rowNumber : Nat) (elt : String) : flow × scanState :=
  match byteIs elt 0 "#" with
  | none => (.panic_, st)
  | some true => (.break_, st)
  | some false =>
    if !st.scanPrefixesDone then
      scanPrefixElt st rowNumber elt
    else
      match scanWord elt st.lineNumber rowNumber with
      | none => (.panic_, st)
      | some token => (.next, st.send token)

/-- The `for _, elt := range line` loop of `scanTurtle`. The result is `next`
when the loop ends, by exhaustion or by `break`. -/
def scanElts : List String → Nat → scanState → flow × scanState
  | [], _, st => (.next, st)
  | elt :: rest, rowNumber, st =>
    match scanElt st rowNumber elt with
    | (.next, st1) => scanElts rest (rowNumber + elt.data.length + 1) st1
    | (.continue_, st1) => scanElts rest rowNumber st1
    | (.break_, st1) => (.next, st1)
    | (.return_, st1) => (.return_, st1)
    | (.panic_, st1) => (.panic_, st1)

/-- The body of the `for scanner.Scan()` loop of `scanTurtle` for one line,
given as the segments that `l.extractSegments` cuts it into (`lineCutter` is not
among the sources). -/
def scanLine (st : scanState) (line : List String) : flow × scanState :=
  let rowNumber := 1
  if line.length == 0 || line.head? == some "#" then
    (.next, st.nextLine)
  else
    let st := st.setScanPrefixesDone (line.head? != some "@prefix")
    match scanElts line rowNumber st with
    | (.next, st1) => (.next, st1.nextLine)
    | other => other

/-- `bufio.MaxScanTokenSize`: the default `bufio.Scanner` of `scanTurtle` holds a
line in a buffer of at most `64 * 1024` bytes. -/
def maxScanTokenSize : Nat := 64 * 1024

/-- One line of the reader: `raw`, its bytes up to the line feed, and `segments`,
what `l.extractSegments(scanner.Text())` cuts it into (`lineCutter` is not among
the sources). -/
structure sourceLine where
  raw : String
  segments : List String
  deriving DecidableEq, Repr

/-- The `for scanner.Scan()` loop of `scanTurtle`. On a line of
`maxScanTokenSize` bytes or more the buffer fills up before the line feed is
found: `scanner.Scan()` returns false (`bufio.ErrTooLong`, which the code does not
read) and the loop ends as it does when the input is exhausted. -/
def scanLines : List sourceLine → scanState → flow × scanState
  | [], st => (.next, st)
  | line :: rest, st =>
    if maxScanTokenSize ≤ line.raw.data.length then
      (.next, st)
    else
      match scanLine st line.segments with
      | (.next, st1) => scanLines rest st1
      | other => other

/-- The state of the goroutine of `scanTurtle` before the first line. -/
def scanState.initial : scanState := ⟨[], "", "", false, 1⟩

/-- `func scanTurtle(reader io.Reader, out chan<- rdfToken, l *lineCutter)`, on
the lines of the reader, each with its segments: how the goroutine ends (`next`
when the loop over the lines ends, `return_` on an early return, `panic_` on a
runtime panic) and the tokens sent on `out`. -/
def scanTurtle (lines : List sourceLine) : flow × List rdfToken :=
  let r := scanLines lines scanState.initial
  (r.1, r.2.out)

/-! ### Vocabulary used to state the properties of the scanner -/

/-- The double quote, byte `0x22`. -/
def dquote : Char := Char.ofNat 34

/-- The single quote, byte `0x27`. -/
def squote : Char := Char.ofNat 39

/-- The word starts with the byte `c`. -/
def startsWithByte (w : String) (c : Char) : Bool := w.data.head? == some c

/-- The word ends with the byte `c`. -/
def endsWithByte (w : String) (c : Char) : Bool := w.data.getLast? == some c

/-- The word starts with the two bytes `a`, `b`. -/
def startsWithBytes (w : String) (a b : Char) : Bool := w.data.take 2 == [a, b]

/-- The word without its first and its last byte. -/
def innerText (w : String) : String := ⟨(w.data.drop 1).dropLast⟩

/-- The word without its first `k` bytes. -/
def textAfter (w : String) (k : Nat) : String := ⟨w.data.drop k⟩

/-- The word is `.` or `]`. -/
def isEndWord (w : String) : Bool := w == "." || w == "]"

/-- The word is `;`, `,` or `[`. -/
def isSepWord (w : String) : Bool := w == ";" || w == "," || w == "["

/-- The word starts with `<` and ends with `>`. -/
def isURIWord (w : String) : Bool := startsWithByte w '<' && endsWithByte w '>'

/-- The word starts and ends with a double quote, or starts and ends with a
single quote. -/
def isLiteralWord (w : String) : Bool :=
  (startsWithByte w dquote && endsWithByte w dquote) ||
    (startsWithByte w squote && endsWithByte w squote)

/-- The word starts with `^^`. -/
def isTypeWord (w : String) : Bool := startsWithBytes w '^' '^'

/-- The word starts with `@`. -/
def isLangWord (w : String) : Bool := startsWithByte w '@'

/-- The word contains a colon. -/
def isPrefixedWord (w : String) : Bool := w.data.contains ':'

/-- The classification of a word as the claim words it: the first rule that
applies, in this order: End, Separator, URI, Literal, Datatype, Lang, BlankNode
(after `_:`, then after `?`), PrefixedURI, Illegal. -/
def classifyWord (w : String) (line row : Nat) : rdfToken :=
  if isEndWord w then .newTokenEnd line row
  else if isSepWord w then .newTokenSep w line row
  else if isURIWord w then .newTokenURI (innerText w)
  else if isLiteralWord w then .newTokenLiteral (innerText w)
  else if isTypeWord w then .newTokenType (textAfter w 2) line row
  else if isLangWord w then .newTokenLang (textAfter w 1) line row
  else if startsWithBytes w '_' ':' then .newTokenBlankNode (textAfter w 2)
  else if startsWithByte w '?' then .newTokenBlankNode (textAfter w 1)
  else if isPrefixedWord w then .newTokenPrefixedURI w line row
  else .newTokenIllegal ("Unexpected token when scanning '" ++ w ++ "'") line row

/-- The word matches none of the End, Separator, URI, Literal, Datatype, Lang,
BlankNode and PrefixedURI shapes. -/
def matchesNoShape (w : String) : Bool :=
  !isEndWord w && !isSepWord w && !isURIWord w && !isLiteralWord w && !isTypeWord w &&
    !isLangWord w && !startsWithBytes w '_' ':' && !startsWithByte w '?' && !isPrefixedWord w

/-! ## Statement interpreter (spec §4.4) -/

/-- Modelled from the spec: the state of the Statement Interpreter, "current
subject (optional), current predicate (optional), a stack of saved `(subject,
predicate)` frames, and the PrefixMap", with the Literal buffered by the
one-token lookahead, the number of synthetic blank-node identifiers allocated so
far and the triples emitted so far. -/
structure parserState where
  subject : Option Node
  predicate : Option Node
  stack : List (Option Node × Option Node)
  prefixes : List (String × String)
  pending : Option Literal
  allocated : Nat
  out : List Triple
  deriving DecidableEq, Repr

/-- Modelled from the spec: the state before the first token: `newStack()`, an
empty PrefixMap, no subject and no predicate. -/
def parserState.initial : parserState := ⟨none, none, [], [], none, 0, []⟩

/-- The binding that `execute` leaves for the key `k`: the term of the matched
triple at the last position, in the order subject, predicate, object, at which
the pattern holds the variable `k`. -/
def lastBinding (p t : Triple) (k : String) : Option Node :=
  if p.Object = .blank ⟨k⟩ then some t.Object
  else if p.Predicate = .blank ⟨k⟩ then some t.Predicate
  else if p.Subject = .blank ⟨k⟩ then some t.Subject
  else none

/-! ## Theorems: term algebra -/

/-- Strict equality of a node with itself. -/
theorem node_equals_self (a : Node) : a.Equals a = (true, none) := by
  cases a <;>
    simp [Node.Equals, URI.Equals, Literal.Equals, BlankNode.Equals,
      Node.asURI, Node.asLiteral, Node.asBlankNode]

/-- Every node is equivalent to itself. -/
theorem node_equivalent_self (a : Node) : a.Equivalent a = (true, none) := by
  cases a <;>
    simp [Node.Equivalent, URI.Equals, URI.Equivalent, Literal.Equals,
      Literal.Equivalent, BlankNode.Equivalent, Node.asURI, Node.asLiteral]

/-- Strict equality of a triple with itself. -/
theorem triple_equals_self (t : Triple) : t.Equals t = (true, none) := by
  simp [Triple.Equals, node_equals_self]

/-- C1: for every Node `a`, whatever its variant and content, `a.Equals(a)`
returns `true` with a `nil` error. -/
theorem node_equals_refl (a : Node) : a.Equals a = (true, none) := by
  cases a with
  | uri u => simp [Node.Equals, URI.Equals, Node.asURI]
  | literal l => simp [Node.Equals, Literal.Equals, Node.asLiteral]
  | blank b => simp [Node.Equals, BlankNode.Equals, Node.asBlankNode]

/-- C2: when `a` and `b` are of different variants, `a.Equals(b)` returns
`false` and a non-nil error; the error is `nil` exactly when the variants are the
same, and then the boolean is the equality of the two value fields. -/
theorem node_equals_variants (a b : Node) :
    (a.sameVariant b = false → (a.Equals b).1 = false ∧ (a.Equals b).2 ≠ none) ∧
    ((a.Equals b).2 = none ↔ a.sameVariant b = true) ∧
    (a.sameVariant b = true → (a.Equals b).1 = decide (a.field = b.field)) := by
  cases a <;> cases b <;>
    simp [Node.Equals, URI.Equals, Literal.Equals, BlankNode.Equals,
      Node.asURI, Node.asLiteral, Node.asBlankNode, Node.sameVariant, Node.field] <;>
    rfl

/-- Witness of C2 on a URI against a Literal and on two URIs. -/
theorem node_equals_variants_witness :
    ((Node.uri ⟨"a"⟩).Equals (Node.literal ⟨"a"⟩)).1 = false ∧
    ((Node.uri ⟨"a"⟩).Equals (Node.literal ⟨"a"⟩)).2 ≠ none ∧
    ((Node.uri ⟨"a"⟩).Equals (Node.uri ⟨"b"⟩)).1
      = decide ((Node.uri ⟨"a"⟩).field = (Node.uri ⟨"b"⟩).field) :=
  ⟨((node_equals_variants (Node.uri ⟨"a"⟩) (Node.literal ⟨"a"⟩)).1 rfl).1,
   ((node_equals_variants (Node.uri ⟨"a"⟩) (Node.literal ⟨"a"⟩)).1 rfl).2,
   (node_equals_variants (Node.uri ⟨"a"⟩) (Node.uri ⟨"b"⟩)).2.2 rfl⟩

/-- C3, as stated, fails: two BlankNodes with different identifiers are of the
same variant, `Equals` returns `false, nil` and `Equivalent` returns `true, nil`. -/
theorem node_equivalent_eq_equals_counterexample :
    (Node.blank ⟨"v"⟩).sameVariant (Node.blank ⟨"w"⟩) = true ∧
    (Node.blank ⟨"v"⟩).Equals (Node.blank ⟨"w"⟩) = (false, none) ∧
    (Node.blank ⟨"v"⟩).Equivalent (Node.blank ⟨"w"⟩) = (true, none) := by
  refine ⟨rfl, ?_, rfl⟩
  simp [Node.Equals, BlankNode.Equals, Node.asBlankNode]

/-- C3, amended: for nodes `a` and `b` of the same variant, `a.Equivalent(b)`
returns the same (nil) error as `a.Equals(b)`; the boolean is the same when both
are URIs or both are Literals, and when both are BlankNodes `Equivalent` returns
`true` whatever the identifiers. -/
theorem node_equivalent_same_variant (a b : Node) (h : a.sameVariant b = true) :
    (a.Equivalent b).2 = (a.Equals b).2 ∧
    (a.isBlank = false → a.Equivalent b = a.Equals b) ∧
    (a.isBlank = true → a.Equivalent b = (true, none)) := by
  cases a <;> cases b <;>
    simp_all [Node.Equals, Node.Equivalent, URI.Equals, URI.Equivalent, Literal.Equals,
      Literal.Equivalent, BlankNode.Equals, BlankNode.Equivalent,
      Node.asURI, Node.asLiteral, Node.asBlankNode, Node.sameVariant, Node.isBlank]

/-- Witness of the amended C3 on two different Literals. -/
theorem node_equivalent_same_variant_witness :
    (Node.literal ⟨"Toto"⟩).Equivalent (Node.literal ⟨"20"⟩)
      = (Node.literal ⟨"Toto"⟩).Equals (Node.literal ⟨"20"⟩) :=
  (node_equivalent_same_variant (Node.literal ⟨"Toto"⟩) (Node.literal ⟨"20"⟩) rfl).2.1 rfl

/-- C4: when `a` or `b` is a BlankNode, `a.Equivalent(b)` returns `true` with a
`nil` error, whatever the other operand. -/
theorem node_equivalent_blank (a b : Node) (h : a.isBlank = true ∨ b.isBlank = true) :
    a.Equivalent b = (true, none) := by
  cases a <;> cases b <;>
    simp_all [Node.Equals, Node.Equivalent, URI.Equals, URI.Equivalent, Literal.Equals,
      Literal.Equivalent, BlankNode.Equals, BlankNode.Equivalent,
      Node.asURI, Node.asLiteral, Node.asBlankNode, Node.isBlank]

/-- Witness of C4: a Literal against a BlankNode, and two BlankNodes with
different identifiers. -/
theorem node_equivalent_blank_witness :
    (Node.literal ⟨"Toto"⟩).Equivalent (Node.blank ⟨"v"⟩) = (true, none) ∧
    (Node.blank ⟨"v"⟩).Equivalent (Node.blank ⟨"w"⟩) = (true, none) :=
  ⟨node_equivalent_blank (Node.literal ⟨"Toto"⟩) (Node.blank ⟨"v"⟩) (Or.inr rfl),
   node_equivalent_blank (Node.blank ⟨"v"⟩) (Node.blank ⟨"w"⟩) (Or.inl rfl)⟩

/-- C5: for nodes of different variants neither of which is a BlankNode (a URI
against a Literal, in either order), `a.Equivalent(b)` returns `false` and a
non-nil error. -/
theorem node_equivalent_mismatch (a b : Node) (hv : a.sameVariant b = false)
    (ha : a.isBlank = false) (hb : b.isBlank = false) :
    (a.Equivalent b).1 = false ∧ (a.Equivalent b).2 ≠ none := by
  cases a <;> cases b <;>
    simp_all [Node.Equals, Node.Equivalent, URI.Equals, URI.Equivalent, Literal.Equals,
      Literal.Equivalent, Node.asURI, Node.asLiteral, Node.asBlankNode,
      Node.sameVariant, Node.isBlank]

/-- Witness of C5: a URI against a Literal and a Literal against a URI. -/
theorem node_equivalent_mismatch_witness :
    (((Node.uri ⟨"foo"⟩).Equivalent (Node.literal ⟨"Toto"⟩)).1 = false ∧
      ((Node.uri ⟨"foo"⟩).Equivalent (Node.literal ⟨"Toto"⟩)).2 ≠ none) ∧
    (((Node.literal ⟨"Toto"⟩).Equivalent (Node.uri ⟨"foo"⟩)).1 = false ∧
      ((Node.literal ⟨"Toto"⟩).Equivalent (Node.uri ⟨"foo"⟩)).2 ≠ none) :=
  ⟨node_equivalent_mismatch (Node.uri ⟨"foo"⟩) (Node.literal ⟨"Toto"⟩) rfl rfl rfl,
   node_equivalent_mismatch (Node.literal ⟨"Toto"⟩) (Node.uri ⟨"foo"⟩) rfl rfl rfl⟩

/-! ## Theorems: triples -/

/-- C6: for every Triple `t`, `t.Equals(t)` and `t.Equivalent(t)` both return
`true` with a `nil` error. -/
theorem triple_equals_equivalent_refl (t : Triple) :
    t.Equals t = (true, none) ∧ t.Equivalent t = (true, none) := by
  constructor
  · exact triple_equals_self t
  · simp [Triple.Equivalent, node_equivalent_self]

/-- C7: `Triple.Equals` (resp. `Triple.Equivalent`) compares subject, predicate
and object in that order with the node-level `Equals` (resp. `Equivalent`): when
the three comparisons return no error the result is their conjunction with a
`nil` error, otherwise it is `false` with the error of the first position whose
comparison fails. -/
theorem triple_positionwise (t u : Triple) :
    ((t.Subject.Equals u.Subject).2 = none → (t.Predicate.Equals u.Predicate).2 = none →
      (t.Object.Equals u.Object).2 = none →
      t.Equals u = ((t.Subject.Equals u.Subject).1 && (t.Predicate.Equals u.Predicate).1
        && (t.Object.Equals u.Object).1, none)) ∧
    ((t.Subject.Equals u.Subject).2 ≠ none →
      t.Equals u = (false, (t.Subject.Equals u.Subject).2)) ∧
    ((t.Subject.Equals u.Subject).2 = none → (t.Predicate.Equals u.Predicate).2 ≠ none →
      t.Equals u = (false, (t.Predicate.Equals u.Predicate).2)) ∧
    ((t.Subject.Equals u.Subject).2 = none → (t.Predicate.Equals u.Predicate).2 = none →
      (t.Object.Equals u.Object).2 ≠ none →
      t.Equals u = (false, (t.Object.Equals u.Object).2)) ∧
    ((t.Subject.Equivalent u.Subject).2 = none →
      (t.Predicate.Equivalent u.Predicate).2 = none →
      (t.Object.Equivalent u.Object).2 = none →
      t.Equivalent u = ((t.Subject.Equivalent u.Subject).1
        && (t.Predicate.Equivalent u.Predicate).1 && (t.Object.Equivalent u.Object).1, none)) ∧
    ((t.Subject.Equivalent u.Subject).2 ≠ none →
      t.Equivalent u = (false, (t.Subject.Equivalent u.Subject).2)) ∧
    ((t.Subject.Equivalent u.Subject).2 = none →
      (t.Predicate.Equivalent u.Predicate).2 ≠ none →
      t.Equivalent u = (false, (t.Predicate.Equivalent u.Predicate).2)) ∧
    ((t.Subject.Equivalent u.Subject).2 = none →
      (t.Predicate.Equivalent u.Predicate).2 = none →
      (t.Object.Equivalent u.Object).2 ≠ none →
      t.Equivalent u = (false, (t.Object.Equivalent u.Object).2)) := by
  rcases h1 : t.Subject.Equals u.Subject with ⟨b1, e1⟩
  rcases h2 : t.Predicate.Equals u.Predicate with ⟨b2, e2⟩
  rcases h3 : t.Object.Equals u.Object with ⟨b3, e3⟩
  rcases h4 : t.Subject.Equivalent u.Subject with ⟨c1, f1⟩
  rcases h5 : t.Predicate.Equivalent u.Predicate with ⟨c2, f2⟩
  rcases h6 : t.Object.Equivalent u.Object with ⟨c3, f3⟩
  cases e1 <;> cases e2 <;> cases e3 <;> cases f1 <;> cases f2 <;> cases f3 <;>
    simp [Triple.Equals, Triple.Equivalent, h1, h2, h3, h4, h5, h6]

/-- Witness of C7: a subject mismatch is reported by `Equals` although the
predicates mismatch too, and `Equivalent` of a pattern with two variables is the
conjunction of the three comparisons. -/
theorem triple_positionwise_witness :
    (NewTriple (.uri ⟨"Tom"⟩) (.uri ⟨"age"⟩) (.literal ⟨"22"⟩)).Equals
        (NewTriple (.literal ⟨"Tom"⟩) (.blank ⟨"p"⟩) (.literal ⟨"22"⟩))
      = (false, ((Node.uri ⟨"Tom"⟩).Equals (.literal ⟨"Tom"⟩)).2) ∧
    agePattern.Equivalent (NewTriple (.uri ⟨"Tom"⟩) (.uri ⟨"age"⟩) (.literal ⟨"22"⟩))
      = (((Node.blank ⟨"x"⟩).Equivalent (.uri ⟨"Tom"⟩)).1
          && ((Node.uri ⟨"age"⟩).Equivalent (.uri ⟨"age"⟩)).1
          && ((Node.blank ⟨"y"⟩).Equivalent (.literal ⟨"22"⟩)).1, none) :=
  ⟨(triple_positionwise (NewTriple (.uri ⟨"Tom"⟩) (.uri ⟨"age"⟩) (.literal ⟨"22"⟩))
      (NewTriple (.literal ⟨"Tom"⟩) (.blank ⟨"p"⟩) (.literal ⟨"22"⟩))).2.1 (by decide),
   (triple_positionwise agePattern
      (NewTriple (.uri ⟨"Tom"⟩) (.uri ⟨"age"⟩) (.literal ⟨"22"⟩))).2.2.2.2.1
      (by decide) (by decide) (by decide)⟩

/-! ## Theorems: list graph -/

/-- The loop of `Filter` appends to what was already sent the stored triples,
in order, whose comparison with the reference triple returns `true, nil`. -/
theorem filterLoop_eq (refTriple : Triple) (ts results : List Triple) :
    ListGraph.filterLoop refTriple ts results
      = results ++ ts.filter (fun t => decide (refTriple.Equivalent t = (true, none))) := by
  induction ts generalizing results with
  | nil => simp [ListGraph.filterLoop]
  | cons t rest ih =>
    rcases h : refTriple.Equivalent t with ⟨b, e⟩
    cases b <;> cases e <;> simp [ListGraph.filterLoop, h, ih, List.filter_cons]

/-- `Filter` as a filter of the stored sequence. -/
theorem filter_eq (g : ListGraph) (s p o : Node) :
    g.Filter s p o
      = g.triples.filter (fun t => decide ((NewTriple s p o).Equivalent t = (true, none))) := by
  simp [ListGraph.Filter, filterLoop_eq]

/-- C8: `Filter(s, p, o)` yields, in insertion order and with multiplicity,
exactly the stored triples `t` for which `NewTriple(s, p, o).Equivalent(t)`
returns `true, nil`; a stored triple whose comparison returns an error is omitted
and the triples stored after it are still scanned. -/
theorem listGraph_filter_spec (g : ListGraph) (s p o : Node) :
    g.Filter s p o
      = g.triples.filter (fun t => decide ((NewTriple s p o).Equivalent t = (true, none))) ∧
    ∀ (before after : List Triple) (bad : Triple),
      g.triples = before ++ bad :: after →
      ((NewTriple s p o).Equivalent bad).2 ≠ none →
      g.Filter s p o
        = (ListGraph.mk before).Filter s p o ++ (ListGraph.mk after).Filter s p o := by
  refine ⟨filter_eq g s p o, ?_⟩
  intro before after bad hg hbad
  have hne : (NewTriple s p o).Equivalent bad ≠ (true, none) := by
    intro h
    rw [h] at hbad
    exact hbad rfl
  simp [filter_eq, hg, List.filter_cons, hne]

/-- Witness of C8: the second stored triple has a Literal subject, its
comparison with the pattern `(<Tom>, ?p, ?o)` returns an error, and the third
stored triple is still yielded. -/
theorem listGraph_filter_spec_witness :
    (ListGraph.mk [NewTriple (.uri ⟨"Tom"⟩) (.uri ⟨"age"⟩) (.literal ⟨"22"⟩),
        NewTriple (.literal ⟨"Tom"⟩) (.uri ⟨"age"⟩) (.literal ⟨"22"⟩),
        NewTriple (.uri ⟨"Tom"⟩) (.uri ⟨"name"⟩) (.literal ⟨"Tom"⟩)]).Filter
        (.uri ⟨"Tom"⟩) (.blank ⟨"p"⟩) (.blank ⟨"o"⟩)
      = (ListGraph.mk [NewTriple (.uri ⟨"Tom"⟩) (.uri ⟨"age"⟩) (.literal ⟨"22"⟩)]).Filter
          (.uri ⟨"Tom"⟩) (.blank ⟨"p"⟩) (.blank ⟨"o"⟩)
        ++ (ListGraph.mk [NewTriple (.uri ⟨"Tom"⟩) (.uri ⟨"name"⟩) (.literal ⟨"Tom"⟩)]).Filter
          (.uri ⟨"Tom"⟩) (.blank ⟨"p"⟩) (.blank ⟨"o"⟩) :=
  (listGraph_filter_spec _ (.uri ⟨"Tom"⟩) (.blank ⟨"p"⟩) (.blank ⟨"o"⟩)).2
    [NewTriple (.uri ⟨"Tom"⟩) (.uri ⟨"age"⟩) (.literal ⟨"22"⟩)]
    [NewTriple (.uri ⟨"Tom"⟩) (.uri ⟨"name"⟩) (.literal ⟨"Tom"⟩)]
    (NewTriple (.literal ⟨"Tom"⟩) (.uri ⟨"age"⟩) (.literal ⟨"22"⟩)) rfl (by decide)

/-- When `Triple.Equivalent` returns `true, nil`, each of the three node-level
comparisons returned `true, nil`. -/
theorem triple_equivalent_true (t u : Triple) (h : t.Equivalent u = (true, none)) :
    t.Subject.Equivalent u.Subject = (true, none) ∧
    t.Predicate.Equivalent u.Predicate = (true, none) ∧
    t.Object.Equivalent u.Object = (true, none) := by
  rcases h4 : t.Subject.Equivalent u.Subject with ⟨c1, f1⟩
  rcases h5 : t.Predicate.Equivalent u.Predicate with ⟨c2, f2⟩
  rcases h6 : t.Object.Equivalent u.Object with ⟨c3, f3⟩
  cases f1 <;> cases f2 <;> cases f3 <;>
    simp_all [Triple.Equivalent]

/-- A node that is not a BlankNode is equivalent only to itself and to
BlankNodes. -/
theorem node_equivalent_ground (a b : Node) (ha : a.isBlank = false)
    (h : a.Equivalent b = (true, none)) : b.isBlank = true ∨ b = a := by
  cases a <;> cases b <;>
    simp_all [Node.Equivalent, URI.Equals, URI.Equivalent, Literal.Equals,
      Literal.Equivalent, Node.asURI, Node.asLiteral, Node.asBlankNode, Node.isBlank]
  · rename_i u v
    cases u; cases v; simp_all
  · rename_i u v
    cases u; cases v; simp_all

/-- C9, as stated, fails: the graph stores `(_:b, <p>, <o>)`, the ground pattern
`(<s>, <p>, <o>)` yields that triple, and comparing it with the pattern by
`Equals` returns `false` and an error. -/
theorem listGraph_filter_ground_counterexample :
    (NewTriple (.uri ⟨"s"⟩) (.uri ⟨"p"⟩) (.uri ⟨"o"⟩)).ground = true ∧
    (ListGraph.mk [NewTriple (.blank ⟨"b"⟩) (.uri ⟨"p"⟩) (.uri ⟨"o"⟩)]).Filter
        (.uri ⟨"s"⟩) (.uri ⟨"p"⟩) (.uri ⟨"o"⟩)
      = [NewTriple (.blank ⟨"b"⟩) (.uri ⟨"p"⟩) (.uri ⟨"o"⟩)] ∧
    (NewTriple (.blank ⟨"b"⟩) (.uri ⟨"p"⟩) (.uri ⟨"o"⟩)).Equals
        (NewTriple (.uri ⟨"s"⟩) (.uri ⟨"p"⟩) (.uri ⟨"o"⟩))
      = (false, some "Error : mismatch type, can only compare two Blank Nodes") := by
  decide

/-- C9, amended: for a ground pattern `(s, p, o)`, every triple yielded by
`Filter(s, p, o)` has at each position either a BlankNode or the node of the
pattern; a yielded triple without any BlankNode is strictly equal to the
pattern, `result.Equals(NewTriple(s, p, o))` returning `true, nil`. -/
theorem listGraph_filter_ground (g : ListGraph) (s p o : Node)
    (hg : (NewTriple s p o).ground = true) (t : Triple) (ht : t ∈ g.Filter s p o) :
    (t.Subject.isBlank = true ∨ t.Subject = s) ∧
    (t.Predicate.isBlank = true ∨ t.Predicate = p) ∧
    (t.Object.isBlank = true ∨ t.Object = o) ∧
    (t.ground = true → t.Equals (NewTriple s p o) = (true, none)) := by
  rw [filter_eq] at ht
  have hm : (NewTriple s p o).Equivalent t = (true, none) := by
    simpa using (List.mem_filter.mp ht).2
  obtain ⟨h1, h2, h3⟩ := triple_equivalent_true _ _ hm
  simp only [Triple.ground, NewTriple, Bool.and_eq_true, Bool.not_eq_true',
    Bool.not_eq_eq_eq_not, Bool.not_true] at hg
  obtain ⟨⟨gs, gp⟩, gob⟩ := hg
  have k1 := node_equivalent_ground s t.Subject gs h1
  have k2 := node_equivalent_ground p t.Predicate gp h2
  have k3 := node_equivalent_ground o t.Object gob h3
  refine ⟨k1, k2, k3, ?_⟩
  intro hgt
  simp only [Triple.ground, Bool.and_eq_true, Bool.not_eq_true',
    Bool.not_eq_eq_eq_not, Bool.not_true] at hgt
  obtain ⟨⟨ts, tp⟩, tob⟩ := hgt
  have e1 : t.Subject = s := k1.resolve_left (by simp [ts])
  have e2 : t.Predicate = p := k2.resolve_left (by simp [tp])
  have e3 : t.Object = o := k3.resolve_left (by simp [tob])
  have := triple_equals_self t
  cases t
  simp only at e1 e2 e3
  subst e1 e2 e3
  exact this

/-- Witness of the amended C9 on the running example with the ground pattern
`(<Tom>, <age>, "22")`. -/
theorem listGraph_filter_ground_witness :
    (NewTriple (.uri ⟨"Tom"⟩) (.uri ⟨"age"⟩) (.literal ⟨"22"⟩)).Equals
        (NewTriple (.uri ⟨"Tom"⟩) (.uri ⟨"age"⟩) (.literal ⟨"22"⟩)) = (true, none) :=
  (listGraph_filter_ground tomAnnGraph (.uri ⟨"Tom"⟩) (.uri ⟨"age"⟩) (.literal ⟨"22"⟩)
    (by decide) (NewTriple (.uri ⟨"Tom"⟩) (.uri ⟨"age"⟩) (.literal ⟨"22"⟩))
    (by decide)).2.2.2 (by decide)

/-! ## Theorems: BGP node -/

/-- The loop of `execute` appends to what was already sent one group per
received triple, in order. -/
theorem executeLoop_eq (subject predicate object : BlankNode)
    (freeSubject freePredicate freeObject : Bool) (ts : List Triple)
    (out : List BindingsGroup) :
    bgpNode.executeLoop subject predicate object freeSubject freePredicate freeObject ts out
      = out ++ ts.map (bgpNode.executeBody subject predicate object
          freeSubject freePredicate freeObject) := by
  induction ts generalizing out with
  | nil => simp [bgpNode.executeLoop]
  | cons t rest ih => simp [bgpNode.executeLoop, ih]

/-- `execute` maps the body of its loop over the triples received from `Filter`. -/
theorem execute_eq_map (n : bgpNode) :
    n.execute
      = (n.graph.Filter n.pattern.Subject n.pattern.Predicate n.pattern.Object).map
          (bgpNode.executeBody n.pattern.Subject.asBlankNode.1 n.pattern.Predicate.asBlankNode.1
            n.pattern.Object.asBlankNode.1 n.pattern.Subject.asBlankNode.2
            n.pattern.Predicate.asBlankNode.2 n.pattern.Object.asBlankNode.2) := by
  simp [bgpNode.execute, executeLoop_eq]

/-- Reading a map after an assignment: the assigned key reads the assigned
value, every other key reads what it read before. -/
theorem mapLookup_mapAssign (m : List (String × Node)) (key : String) (value : Node)
    (k : String) :
    mapLookup (mapAssign m key value) k
      = if key = k then some value else mapLookup m k := by
  induction m with
  | nil => simp [mapAssign, mapLookup]
  | cons e rest ih =>
    obtain ⟨k0, v0⟩ := e
    by_cases h0 : k0 = key
    · subst h0
      by_cases h1 : k0 = k <;> simp [mapAssign, mapLookup, h1]
    · by_cases h1 : k0 = k
      · subst h1
        simp [mapAssign, mapLookup, h0, Ne.symm h0]
      · simp [mapAssign, mapLookup, h0, h1, ih]

/-- Reading the group built by the loop body of `execute`. -/
theorem executeBody_get (subject predicate object : BlankNode)
    (freeSubject freePredicate freeObject : Bool) (t : Triple) (k : String) :
    (bgpNode.executeBody subject predicate object freeSubject freePredicate freeObject t).get k
      = if freeObject = true ∧ object.Variable = k then some t.Object
        else if freePredicate = true ∧ predicate.Variable = k then some t.Predicate
        else if freeSubject = true ∧ subject.Variable = k then some t.Subject
        else none := by
  cases freeSubject <;> cases freePredicate <;> cases freeObject <;>
    simp [bgpNode.executeBody, NewBindingsGroup, BindingsGroup.set, BindingsGroup.get,
      mapLookup_mapAssign, mapLookup]

/-- With pairwise distinct variables, the group built by the loop body holds
exactly the bindings of the pattern for the matched triple. -/
theorem executeBody_binds (p t : Triple) (hd : p.distinctVars = true) :
    bindsPattern p t
      (bgpNode.executeBody p.Subject.asBlankNode.1 p.Predicate.asBlankNode.1
        p.Object.asBlankNode.1 p.Subject.asBlankNode.2 p.Predicate.asBlankNode.2
        p.Object.asBlankNode.2 t) := by
  intro k
  rw [executeBody_get]
  obtain ⟨ps, pp, po⟩ := p
  rcases ps with ⟨⟨a⟩⟩ | ⟨⟨a⟩⟩ | ⟨⟨a⟩⟩ <;> rcases pp with ⟨⟨b⟩⟩ | ⟨⟨b⟩⟩ | ⟨⟨b⟩⟩ <;>
    rcases po with ⟨⟨c⟩⟩ | ⟨⟨c⟩⟩ | ⟨⟨c⟩⟩ <;>
    simp_all [Node.asBlankNode, Triple.distinctVars, Node.distinctVar] <;>
    (try constructor) <;> intros <;> subst_vars <;>
    first
      | simp_all
      | (split_ifs <;> simp_all)

/-- C10: `execute` yields one bindings group per triple returned by
`Filter(pattern.Subject, pattern.Predicate, pattern.Object)`, in the same order;
when the variables at the BlankNode positions of the pattern are pairwise
distinct, the group for the matched triple `t` binds each such variable name to
the term of `t` at that position and has no other key. On the graph
`(<Tom>, <age>, "22")`, `(<Ann>, <age>, "30")` the pattern `(?x, <age>, ?y)` yields
`x ↦ <Tom>, y ↦ "22"` and then `x ↦ <Ann>, y ↦ "30"`. -/
theorem bgp_execute_spec (n : bgpNode) :
    n.execute.length
      = (n.graph.Filter n.pattern.Subject n.pattern.Predicate n.pattern.Object).length ∧
    (n.pattern.distinctVars = true →
      List.Forall₂ (fun t group => bindsPattern n.pattern t group)
        (n.graph.Filter n.pattern.Subject n.pattern.Predicate n.pattern.Object) n.execute) ∧
    (newBgpNode agePattern tomAnnGraph.toGraph).execute
      = [⟨[("x", .uri ⟨"Tom"⟩), ("y", .literal ⟨"22"⟩)]⟩,
         ⟨[("x", .uri ⟨"Ann"⟩), ("y", .literal ⟨"30"⟩)]⟩] := by
  refine ⟨?_, ?_, by decide⟩
  · simp [execute_eq_map]
  · intro hd
    rw [execute_eq_map, List.forall₂_map_right_iff, List.forall₂_same]
    intro t _
    exact executeBody_binds n.pattern t hd

/-- Witness of C10 on the running example: the pattern `(?x, <age>, ?y)` has
distinct variables and each yielded group holds exactly the bindings of the
pattern for the triple at the same rank. -/
theorem bgp_execute_spec_witness :
    agePattern.distinctVars = true ∧
    List.Forall₂ (fun t group => bindsPattern agePattern t group)
      (tomAnnGraph.Filter (.blank ⟨"x"⟩) (.uri ⟨"age"⟩) (.blank ⟨"y"⟩))
      (newBgpNode agePattern tomAnnGraph.toGraph).execute :=
  ⟨by decide, (bgp_execute_spec (newBgpNode agePattern tomAnnGraph.toGraph)).2.1 (by decide)⟩

/-! ## Theorems: BGP node, `executeWith` -/

/-- C11: evaluation of `executeWith` on the graph `(<Tom>, <age>, "22")`,
`(<Ann>, <age>, "30")` with the pattern `(?x, <age>, ?y)`. With the one binding
`x ↦ <Tom>` it yields the one group `x ↦ <Tom>, y ↦ "22"`. With the bindings
`x ↦ <Tom>, z ↦ <Foo>` enumerated in that order the entry `z` resets the query
subject to `?x`: both stored triples match and two groups are yielded, the second
one pairing `x ↦ <Tom>` with the age of `<Ann>`. With no binding the query nodes
stay nil and the call of `Filter` ends in a runtime panic. -/
theorem bgp_executeWith_evaluation :
    (newBgpNode agePattern tomAnnGraph.toGraph).executeWith ⟨[("x", .uri ⟨"Tom"⟩)]⟩
      = some [⟨[("x", .uri ⟨"Tom"⟩), ("y", .literal ⟨"22"⟩)]⟩] ∧
    (newBgpNode agePattern tomAnnGraph.toGraph).executeWith
        ⟨[("x", .uri ⟨"Tom"⟩), ("z", .uri ⟨"Foo"⟩)]⟩
      = some [⟨[("x", .uri ⟨"Tom"⟩), ("z", .uri ⟨"Foo"⟩), ("y", .literal ⟨"22"⟩)]⟩,
              ⟨[("x", .uri ⟨"Tom"⟩), ("z", .uri ⟨"Foo"⟩), ("y", .literal ⟨"30"⟩)]⟩] ∧
    (newBgpNode agePattern tomAnnGraph.toGraph).executeWith ⟨[]⟩ = none := by
  decide

/-- The loop of `executeWith` appends to what was already sent one group per
received triple, in order. -/
theorem executeWithLoop_eq (group : BindingsGroup) (subject predicate object : BlankNode)
    (freeSubject freePredicate freeObject : Bool) (ts : List Triple)
    (out : List BindingsGroup) :
    bgpNode.executeWithLoop group subject predicate object
        freeSubject freePredicate freeObject ts out
      = out ++ ts.map (bgpNode.executeWithBody group subject predicate object
          freeSubject freePredicate freeObject) := by
  induction ts generalizing out with
  | nil => simp [bgpNode.executeWithLoop]
  | cons t rest ih => simp [bgpNode.executeWithLoop, ih]

/-- Reading the group built by the loop body of `executeWith`. -/
theorem executeWithBody_get (group : BindingsGroup) (subject predicate object : BlankNode)
    (freeSubject freePredicate freeObject : Bool) (t : Triple) (k : String) :
    (bgpNode.executeWithBody group subject predicate object
        freeSubject freePredicate freeObject t).get k
      = if freeObject = true ∧ object.Variable = k then some t.Object
        else if freePredicate = true ∧ predicate.Variable = k then some t.Predicate
        else if freeSubject = true ∧ subject.Variable = k then some t.Subject
        else group.get k := by
  cases freeSubject <;> cases freePredicate <;> cases freeObject <;>
    simp [bgpNode.executeWithBody, BindingsGroup.Clone, BindingsGroup.set, BindingsGroup.get,
      mapLookup_mapAssign]

/-- A key reads `none` in a map exactly when no entry carries it. -/
theorem mapLookup_eq_none (m : List (String × Node)) (k : String) :
    mapLookup m k = none ↔ m.any (fun e => e.1 == k) = false := by
  induction m with
  | nil => simp [mapLookup]
  | cons e rest ih =>
    obtain ⟨k0, v0⟩ := e
    by_cases h : k0 = k <;> simp [mapLookup, h, ih]

/-- The flags after the `range group.Bindings` loop: a flag is still set
exactly when it was set before the loop and no enumerated entry carries the
variable of that position. -/
theorem completeLoop_free (n : bgpNode) (subject predicate object : BlankNode)
    (l : List (String × Node)) (st : queryState) :
    (bgpNode.completeLoop n subject predicate object l st).freeSubject
      = (st.freeSubject && !(l.any (fun e => e.1 == subject.Variable))) ∧
    (bgpNode.completeLoop n subject predicate object l st).freePredicate
      = (st.freePredicate && !(l.any (fun e => e.1 == predicate.Variable))) ∧
    (bgpNode.completeLoop n subject predicate object l st).freeObject
      = (st.freeObject && !(l.any (fun e => e.1 == object.Variable))) := by
  induction l generalizing st with
  | nil => simp [bgpNode.completeLoop]
  | cons e rest ih =>
    obtain ⟨k0, v0⟩ := e
    obtain ⟨qs, qp, qo, fs, fp, fo⟩ := st
    simp only [bgpNode.completeLoop, ih, bgpNode.completeBody]
    refine ⟨?_, ?_, ?_⟩
    · by_cases h : subject.Variable = k0
      · cases fs <;> simp [h]
      · have h2 : ¬k0 = subject.Variable := fun e => h e.symm
        cases fs <;> simp [h, h2]
    · by_cases h : predicate.Variable = k0
      · cases fp <;> simp [h]
      · have h2 : ¬k0 = predicate.Variable := fun e => h e.symm
        cases fp <;> simp [h, h2]
    · by_cases h : object.Variable = k0
      · cases fo <;> simp [h]
      · have h2 : ¬k0 = object.Variable := fun e => h e.symm
        cases fo <;> simp [h, h2]

/-- Every group yielded by `executeWith` is built by the loop body from the
incoming group and one triple, with the flags left by the `range` loop. -/
theorem executeWith_mem (n : bgpNode) (group : BindingsGroup) (res : List BindingsGroup)
    (h : n.executeWith group = some res) (g : BindingsGroup) (hg : g ∈ res) :
    ∃ t : Triple, g = bgpNode.executeWithBody group n.pattern.Subject.asBlankNode.1
      n.pattern.Predicate.asBlankNode.1 n.pattern.Object.asBlankNode.1
      (n.pattern.Subject.asBlankNode.2 &&
        !(group.Bindings.any (fun e => e.1 == n.pattern.Subject.asBlankNode.1.Variable)))
      (n.pattern.Predicate.asBlankNode.2 &&
        !(group.Bindings.any (fun e => e.1 == n.pattern.Predicate.asBlankNode.1.Variable)))
      (n.pattern.Object.asBlankNode.2 &&
        !(group.Bindings.any (fun e => e.1 == n.pattern.Object.asBlankNode.1.Variable)))
      t := by
  have hf := completeLoop_free n n.pattern.Subject.asBlankNode.1
    n.pattern.Predicate.asBlankNode.1 n.pattern.Object.asBlankNode.1 group.Bindings
    ⟨none, none, none, n.pattern.Subject.asBlankNode.2, n.pattern.Predicate.asBlankNode.2,
      n.pattern.Object.asBlankNode.2⟩
  obtain ⟨h1, h2, h3⟩ := hf
  simp only at h1 h2 h3
  unfold bgpNode.executeWith at h
  simp only [executeWithLoop_eq, h1, h2, h3, List.nil_append] at h
  split at h
  · simp only [Option.some.injEq] at h
    subst h
    obtain ⟨t, _, ht⟩ := List.mem_map.mp hg
    exact ⟨t, ht.symm⟩
  · split at h
    · simp only [Option.some.injEq] at h
      subst h
      obtain ⟨t, _, ht⟩ := List.mem_map.mp hg
      exact ⟨t, ht.symm⟩
    · exact absurd h (by simp)

/-- A flag left set by the `range` loop of `executeWith`: the pattern node is
the BlankNode of that variable and the incoming group has no entry for it. -/
theorem free_flag (p : Node) (group : BindingsGroup)
    (h : (p.asBlankNode.2 &&
      !(group.Bindings.any (fun e => e.1 == p.asBlankNode.1.Variable))) = true) :
    p = .blank ⟨p.asBlankNode.1.Variable⟩ ∧ group.get p.asBlankNode.1.Variable = none := by
  rw [Bool.and_eq_true] at h
  obtain ⟨h1, h2⟩ := h
  constructor
  · cases p <;> simp_all [Node.asBlankNode]
  · rw [BindingsGroup.get, mapLookup_eq_none]
    simpa using h2

/-- C12: every group yielded by `executeWith(incoming)` reads, at every key of
`incoming`, the term that `incoming` holds there, and every other key it holds is
the name of a variable of the pattern. -/
theorem bgp_executeWith_frame (n : bgpNode) (group : BindingsGroup)
    (res : List BindingsGroup) (h : n.executeWith group = some res)
    (g : BindingsGroup) (hg : g ∈ res) :
    (∀ (k : String) (v : Node), group.get k = some v → g.get k = some v) ∧
    (∀ k : String, g.get k ≠ none →
      group.get k ≠ none ∨ n.pattern.Subject = .blank ⟨k⟩ ∨
        n.pattern.Predicate = .blank ⟨k⟩ ∨ n.pattern.Object = .blank ⟨k⟩) := by
  obtain ⟨t, rfl⟩ := executeWith_mem n group res h g hg
  constructor
  · intro k v hk
    rw [executeWithBody_get]
    split_ifs with h1 h2 h3
    · obtain ⟨hf, rfl⟩ := h1
      rw [(free_flag _ group hf).2] at hk
      cases hk
    · obtain ⟨hf, rfl⟩ := h2
      rw [(free_flag _ group hf).2] at hk
      cases hk
    · obtain ⟨hf, rfl⟩ := h3
      rw [(free_flag _ group hf).2] at hk
      cases hk
    · exact hk
  · intro k hk
    rw [executeWithBody_get] at hk
    split_ifs at hk with h1 h2 h3
    · obtain ⟨hf, rfl⟩ := h1
      exact Or.inr (Or.inr (Or.inr (free_flag _ group hf).1))
    · obtain ⟨hf, rfl⟩ := h2
      exact Or.inr (Or.inr (Or.inl (free_flag _ group hf).1))
    · obtain ⟨hf, rfl⟩ := h3
      exact Or.inr (Or.inl (free_flag _ group hf).1)
    · exact Or.inl hk

/-- Witness of C12 on the running example with the incoming group `x ↦ <Tom>`:
the yielded group still reads `<Tom>` at `x`. -/
theorem bgp_executeWith_frame_witness :
    (BindingsGroup.mk [("x", .uri ⟨"Tom"⟩), ("y", .literal ⟨"22"⟩)]).get "x"
      = some (.uri ⟨"Tom"⟩) :=
  (bgp_executeWith_frame (newBgpNode agePattern tomAnnGraph.toGraph)
    ⟨[("x", .uri ⟨"Tom"⟩)]⟩ [⟨[("x", .uri ⟨"Tom"⟩), ("y", .literal ⟨"22"⟩)]⟩]
    (by decide) ⟨[("x", .uri ⟨"Tom"⟩), ("y", .literal ⟨"22"⟩)]⟩ (by decide)).1
    "x" (.uri ⟨"Tom"⟩) (by decide)

/-! ## Theorems: Go strings -/

/-- The first byte of a string. -/
theorem goIndex_zero (s : String) : goIndex s 0 = s.data.head? := by
  simp [goIndex, List.head?_eq_getElem?]

/-- The second byte of a string. -/
theorem goIndex_one (s : String) : goIndex s 1 = s.data[1]? := by
  simp [goIndex]

/-- The last byte of a string; the index `len(s) - 1` is out of range exactly
for the empty string. -/
theorem goIndex_last (s : String) : goIndex s (goLen s - 1) = s.data.getLast? := by
  obtain ⟨l⟩ := s
  rcases List.eq_nil_or_concat l with h | ⟨l0, c, h⟩
  · subst h
    simp [goIndex, goLen]
  · subst h
    have h0 : (0 : Int) ≤ ((l0.length : Int) + 1) - 1 := by omega
    have h1 : (((l0.length : Int) + 1) - 1).toNat = l0.length := by omega
    simp [goIndex, goLen, h0, h1]

/-- The slice `s[1 : len(s)-1]` is in range from two bytes on. -/
theorem goSlice_inner (s : String) :
    goSlice s 1 (goLen s - 1)
      = if 2 ≤ s.data.length then some ⟨(s.data.drop 1).dropLast⟩ else none := by
  obtain ⟨l⟩ := s
  by_cases h : 2 ≤ l.length
  · have h0 : (1 : Int) ≤ (l.length : Int) - 1 := by omega
    have h1 : ((l.length : Int) - 1 - 1).toNat = l.length - 1 - 1 := by omega
    simp [goSlice, goLen, h, h0, h1, List.dropLast_eq_take]
  · have h0 : ¬ (1 : Int) ≤ (l.length : Int) - 1 := by omega
    simp [goSlice, goLen, h, h0]

/-- The slice `s[k:]` is in range when the string has `k` bytes or more. -/
theorem goSlice_from (s : String) (k : Nat) :
    goSlice s k (goLen s) = if k ≤ s.data.length then some ⟨s.data.drop k⟩ else none := by
  obtain ⟨l⟩ := s
  by_cases h : k ≤ l.length
  · have h0 : (k : Int) ≤ (l.length : Int) := by omega
    have h1 : ((l.length : Int) - (k : Int)).toNat = l.length - k := by omega
    have h2 : List.take (l.length - k) (List.drop k l) = List.drop k l :=
      List.take_of_length_le (by simp)
    simp [goSlice, goLen, h, h0, h1, h2]
  · have h0 : ¬ (k : Int) ≤ (l.length : Int) := by omega
    simp [goSlice, goLen, h, h0]

/-- The slice `s[0:2]` is in range from two bytes on. -/
theorem goSlice_two (s : String) :
    goSlice s 0 2 = if 2 ≤ s.data.length then some ⟨s.data.take 2⟩ else none := by
  obtain ⟨l⟩ := s
  by_cases h : 2 ≤ l.length
  · have h0 : (2 : Int) ≤ (l.length : Int) := by omega
    simp [goSlice, goLen, h, h0]
  · have h0 : ¬ (2 : Int) ≤ (l.length : Int) := by omega
    simp [goSlice, goLen, h, h0]

/-- The slice `s[0 : len(s)-1]` is in range for a non-empty string. -/
theorem goSlice_init (s : String) :
    goSlice s 0 (goLen s - 1)
      = if 1 ≤ s.data.length then some ⟨s.data.dropLast⟩ else none := by
  obtain ⟨l⟩ := s
  by_cases h : 1 ≤ l.length
  · have h0 : (0 : Int) ≤ (l.length : Int) - 1 := by omega
    have h1 : ((l.length : Int) - 1).toNat = l.length - 1 := by omega
    simp [goSlice, goLen, h, h0, h1, List.dropLast_eq_take]
  · have h0 : ¬ (0 : Int) ≤ (l.length : Int) - 1 := by omega
    simp [goSlice, goLen, h, h0]

/-- Comparing `string(b)` with a one-byte ASCII string compares the bytes. -/
theorem byteToString_beq (b x : Char) (lit : String) (hlit : lit = String.singleton x)
    (hx : x.toNat < 128) : (byteToString b == lit) = (b == x) := by
  subst hlit
  unfold byteToString
  by_cases hb : b.toNat < 128
  · by_cases hbx : b = x
    · subst hbx
      simp [hb]
    · have : ¬ String.singleton b = String.singleton x := by
        intro h
        apply hbx
        have := congrArg String.data h
        simpa [String.singleton] using this
      simp [hb, hbx, this]
  · have hbx : ¬ b = x := by
      intro h
      subst h
      exact hb hx
    have : ¬ (String.mk [Char.ofNat (192 + b.toNat / 64), Char.ofNat (128 + b.toNat % 64)])
        = String.singleton x := by
      intro h
      have := congrArg (fun s => s.data.length) h
      simp [String.singleton] at this
    simp [hb, hbx, this]

/-- The slice `s[1:]`. -/
theorem goSlice_from_one (s : String) :
    goSlice s 1 (goLen s) = if 1 ≤ s.data.length then some (textAfter s 1) else none := by
  simpa [textAfter] using goSlice_from s 1

/-- The slice `s[2:]`. -/
theorem goSlice_from_two (s : String) :
    goSlice s 2 (goLen s) = if 2 ≤ s.data.length then some (textAfter s 2) else none := by
  simpa [textAfter] using goSlice_from s 2

/-- A condition whose evaluation does not panic selects a branch. -/
theorem goIf_some {α : Type} (c : Bool) (a b : Option α) :
    goIf (some c) a b = if c then a else b := by
  cases c <;> rfl

/-- Conjunction of two conditions whose evaluation does not panic. -/
theorem goAnd_some (a b : Bool) : goAnd (some a) (some b) = some (a && b) := by
  cases a <;> rfl

/-- Disjunction of two conditions whose evaluation does not panic. -/
theorem goOr_some (a b : Bool) : goOr (some a) (some b) = some (a || b) := by
  cases a <;> rfl

/-- A false first operand makes the second one irrelevant. -/
theorem goAnd_false (b : Option Bool) : goAnd (some false) b = some false := rfl

/-- The test `string(s[0]) == lit` on a non-empty string, for a one-byte ASCII
literal. -/
theorem byteIs_first (s : String) (x : Char) (lit : String) (hs : s ≠ "")
    (hlit : lit = String.singleton x) (hx : x.toNat < 128) :
    byteIs s 0 lit = some (startsWithByte s x) := by
  obtain ⟨l⟩ := s
  rcases l with _ | ⟨c, cs⟩
  · exact absurd rfl hs
  · simp [byteIs, goIndex_zero, startsWithByte, byteToString_beq c x lit hlit hx]

/-- The test `string(s[len(s)-1]) == lit` on a non-empty string, for a one-byte
ASCII literal. -/
theorem byteIs_last (s : String) (x : Char) (lit : String) (hs : s ≠ "")
    (hlit : lit = String.singleton x) (hx : x.toNat < 128) :
    byteIs s (goLen s - 1) lit = some (endsWithByte s x) := by
  obtain ⟨l⟩ := s
  rcases List.eq_nil_or_concat l with h | ⟨l0, c, h⟩
  · subst h
    exact absurd rfl hs
  · subst h
    simp [byteIs, goIndex_last, endsWithByte, byteToString_beq c x lit hlit hx]

/-- The search of one byte finds a position exactly when the byte occurs. -/
theorem stringsIndexFrom_single (x : Char) (l : List Char) (i : Nat) :
    stringsIndexFrom [x] l i > -1 ↔ x ∈ l := by
  induction l generalizing i with
  | nil => simp [stringsIndexFrom]
  | cons c cs ih =>
    by_cases h : x = c
    · subst h
      have : (-1 : Int) < (i : Int) := by omega
      simp [stringsIndexFrom, List.isPrefixOf, this]
    · simp [stringsIndexFrom, List.isPrefixOf, h, ih]

/-- The test `strings.Index(elt, ":") > -1`. -/
theorem stringsIndex_colon (s : String) :
    decide (stringsIndex s ":" > -1) = isPrefixedWord s := by
  have h : (":" : String).data = [':'] := rfl
  simp only [stringsIndex, h, isPrefixedWord]
  by_cases hm : ':' ∈ s.data
  · simp [hm, (stringsIndexFrom_single ':' s.data 0).mpr hm]
  · have := (stringsIndexFrom_single ':' s.data 0).not.mpr hm
    simp [hm, this]

/-- A word that starts with one byte and ends with another one has two bytes or
more. -/
theorem two_bytes_of_ends (s : String) (a b : Char) (ha : startsWithByte s a = true)
    (hb : endsWithByte s b = true) (hab : a ≠ b ∨ s ≠ String.singleton a) :
    2 ≤ s.data.length := by
  obtain ⟨l⟩ := s
  rcases l with _ | ⟨c, _ | ⟨d, ds⟩⟩
  · simp [startsWithByte] at ha
  · simp [startsWithByte, endsWithByte] at ha hb
    subst ha
    subst hb
    rcases hab with h | h
    · exact absurd rfl h
    · exact absurd rfl h
  · simp

/-- A word that starts with two given bytes has two bytes or more. -/
theorem two_bytes_of_starts (s : String) (a b : Char) (h : startsWithBytes s a b = true) :
    2 ≤ s.data.length := by
  obtain ⟨l⟩ := s
  rcases l with _ | ⟨c, _ | ⟨d, ds⟩⟩ <;> simp [startsWithBytes] at h ⊢

/-- The guard `string(elt[0]) == "_" && string(elt[1]) == ":"` on a non-empty
word other than `_`. -/
theorem guard_blank (s : String) (hs : s ≠ "") (h1 : s ≠ "_") :
    goAnd (byteIs s 0 "_") (byteIs s 1 ":") = some (startsWithBytes s '_' ':') := by
  rw [byteIs_first s '_' "_" hs rfl (by decide)]
  obtain ⟨l⟩ := s
  rcases l with _ | ⟨c, _ | ⟨d, ds⟩⟩
  · exact absurd rfl hs
  · have hc : c ≠ '_' := by
      intro h
      subst h
      exact h1 rfl
    have hb : (c == '_') = false := by simp [hc]
    simp [startsWithByte, startsWithBytes, hc, hb, goAnd_false]
  · simp [byteIs, goIndex_one, startsWithByte, startsWithBytes, goAnd_some,
      byteToString_beq d ':' ":" rfl (by decide)]

/-- The guard `len(elt) >= 2 && elt[0:2] == "^^"`. -/
theorem guard_type (s : String) :
    goAnd (some (decide (goLen s ≥ 2))) ((goSlice s 0 2).map (fun p => p == "^^"))
      = some (startsWithBytes s '^' '^') := by
  rw [goSlice_two]
  have hlit : ("^^" : String) = ⟨['^', '^']⟩ := rfl
  obtain ⟨l⟩ := s
  by_cases h : 2 ≤ l.length
  · have h0 : (2 : Int) ≤ (l.length : Int) := by omega
    have hiff : (String.mk (List.take 2 l) = "^^") ↔ (List.take 2 l = ['^', '^']) := by
      rw [hlit]
      exact ⟨fun e => congrArg String.data e, fun e => by rw [e]⟩
    simp [goLen, h, h0, goAnd_some, startsWithBytes, hiff]
  · have h0 : ¬ (2 : Int) ≤ (l.length : Int) := by omega
    have h3 : ¬ List.take 2 l = ['^', '^'] := by
      intro e
      have := congrArg List.length e
      simp at this
      omega
    simp [goLen, h, h0, goAnd_false, startsWithBytes, h3]

/-- Outside a prefix declaration, the `switch` of `scanTurtle` sends for a
non-empty word other than `_` and the two one-byte quotes the token of the first
rule that applies. -/
theorem scanWord_eq_classify (elt : String) (line row : Nat)
    (hne : elt ≠ "") (h1 : elt ≠ "_") (h2 : elt ≠ String.singleton dquote)
    (h3 : elt ≠ String.singleton squote) :
    scanWord elt line row = some (classifyWord elt line row) := by
  have e1 := byteIs_first elt '<' "<" hne rfl (by decide)
  have e2 := byteIs_last elt '>' ">" hne rfl (by decide)
  have e3 := byteIs_first elt dquote "\"" hne rfl (by decide)
  have e4 := byteIs_last elt dquote "\"" hne rfl (by decide)
  have e5 := byteIs_first elt squote "'" hne rfl (by decide)
  have e6 := byteIs_last elt squote "'" hne rfl (by decide)
  have e7 := byteIs_first elt '@' "@" hne rfl (by decide)
  have e8 := byteIs_first elt '?' "?" hne rfl (by decide)
  have e9 := guard_blank elt hne h1
  have e10 := guard_type elt
  have hlen : 1 ≤ elt.data.length := by
    obtain ⟨l⟩ := elt
    rcases l with _ | ⟨c, cs⟩
    · exact absurd rfl hne
    · simp
  have hp : (stringsIndex elt ":" > -1) ↔ isPrefixedWord elt = true := by
    rw [← stringsIndex_colon]
    simp
  have hU : isURIWord elt = true → 2 ≤ elt.data.length := by
    intro h
    simp only [isURIWord, Bool.and_eq_true] at h
    exact two_bytes_of_ends elt '<' '>' h.1 h.2 (Or.inl (by decide))
  have hL : isLiteralWord elt = true → 2 ≤ elt.data.length := by
    intro h
    simp only [isLiteralWord, Bool.or_eq_true, Bool.and_eq_true] at h
    rcases h with h | h
    · exact two_bytes_of_ends elt dquote dquote h.1 h.2 (Or.inr h2)
    · exact two_bytes_of_ends elt squote squote h.1 h.2 (Or.inr h3)
  have hT : isTypeWord elt = true → 2 ≤ elt.data.length :=
    fun h => two_bytes_of_starts elt '^' '^' h
  have hB : startsWithBytes elt '_' ':' = true → 2 ≤ elt.data.length :=
    fun h => two_bytes_of_starts elt '_' ':' h
  have c1 : (elt == "." || elt == "]") = isEndWord elt := rfl
  have c2 : (elt == ";" || elt == "," || elt == "[") = isSepWord elt := rfl
  have c3 : (startsWithByte elt '<' && endsWithByte elt '>') = isURIWord elt := rfl
  have c4 : (startsWithByte elt dquote && endsWithByte elt dquote ||
      startsWithByte elt squote && endsWithByte elt squote) = isLiteralWord elt := rfl
  have c5 : startsWithBytes elt '^' '^' = isTypeWord elt := rfl
  have c6 : startsWithByte elt '@' = isLangWord elt := rfl
  unfold scanWord classifyWord
  simp only [e1, e2, e3, e4, e5, e6, e7, e8, e9, e10, goAnd_some, goOr_some, goIf_some,
    goSlice_inner, goSlice_from_one, goSlice_from_two, hlen, if_true, hp, c1, c2, c3, c4,
    c5, c6]
  clear e1 e2 e3 e4 e5 e6 e7 e8 e9 e10 c1 c2 c3 c4 c5 c6 hp
  by_cases k1 : isEndWord elt = true
  · simp only [if_pos k1]
  simp only [if_neg k1]
  by_cases k2 : isSepWord elt = true
  · simp only [if_pos k2]
  simp only [if_neg k2]
  by_cases k3 : isURIWord elt = true
  · simp only [if_pos k3, if_pos (hU k3), innerText, Option.map_some']
  simp only [if_neg k3]
  by_cases k4 : isLiteralWord elt = true
  · simp only [if_pos k4, if_pos (hL k4), innerText, Option.map_some']
  simp only [if_neg k4]
  by_cases k5 : isTypeWord elt = true
  · simp only [if_pos k5, if_pos (hT k5), Option.map_some']
  simp only [if_neg k5]
  by_cases k6 : isLangWord elt = true
  · simp only [if_pos k6, Option.map_some']
  simp only [if_neg k6]
  by_cases k7 : startsWithBytes elt '_' ':' = true
  · simp only [if_pos k7, if_pos (hB k7), Option.map_some']
  simp only [if_neg k7]
  by_cases k8 : startsWithByte elt '?' = true
  · simp only [if_pos k8, Option.map_some']
  simp only [if_neg k8]
  by_cases k9 : isPrefixedWord elt = true
  · simp only [if_pos k9]
  simp only [if_neg k9]

/-! ## Theorems: Turtle scanner -/

/-- The first byte of a non-empty word that does not start with `#` passes the
comment test of the element loop. -/
theorem byteIs_hash (elt : String) (hne : elt ≠ "") (hhash : startsWithByte elt '#' = false) :
    byteIs elt 0 "#" = some false := by
  rw [byteIs_first elt '#' "#" hne rfl (by decide), hhash]

/-- Outside a prefix declaration, the element loop sends for a non-empty word
that does not start with `#` and is none of `_` and the two one-byte quotes the
token of the first rule that applies, and goes on to the row update. -/
theorem scanElt_next (st : scanState) (rowNumber : Nat) (elt : String)
    (hdone : st.scanPrefixesDone = true) (hne : elt ≠ "")
    (hhash : startsWithByte elt '#' = false) (h1 : elt ≠ "_")
    (h2 : elt ≠ String.singleton dquote) (h3 : elt ≠ String.singleton squote) :
    scanElt st rowNumber elt
      = (.next, st.send (classifyWord elt st.lineNumber rowNumber)) := by
  simp [scanElt, byteIs_hash elt hne hhash, goIf, hdone,
    scanWord_eq_classify elt st.lineNumber rowNumber hne h1 h2 h3]

/-- The `switch` of a prefix declaration keeps the line number and only adds
tokens to the ones already sent. -/
theorem scanPrefixElt_frame (st : scanState) (rowNumber : Nat) (elt : String) :
    (scanPrefixElt st rowNumber elt).2.lineNumber = st.lineNumber ∧
    st.out <+: (scanPrefixElt st rowNumber elt).2.out := by
  unfold scanPrefixElt
  split_ifs
  · simp
  · simp [scanState.send, scanState.setPrefixName, scanState.setPrefixValue]
  · split
    · simp
    · simp [scanState.send]
    · split <;> simp [scanState.setPrefixName]
  · split
    · simp
    · simp [scanState.send]
    · split <;> simp [scanState.setPrefixValue]
  · simp [scanState.send]

/-- The processing of one element keeps the line number and only adds tokens
to the ones already sent. -/
theorem scanElt_frame (st : scanState) (rowNumber : Nat) (elt : String) :
    (scanElt st rowNumber elt).2.lineNumber = st.lineNumber ∧
    st.out <+: (scanElt st rowNumber elt).2.out := by
  unfold scanElt
  split
  · simp
  · simp
  · split_ifs
    · exact scanPrefixElt_frame st rowNumber elt
    · split <;> simp [scanState.send]

/-- The element loop keeps the line number and only adds tokens to the ones
already sent. -/
theorem scanElts_frame (line : List String) (rowNumber : Nat) (st : scanState) :
    (scanElts line rowNumber st).2.lineNumber = st.lineNumber ∧
    st.out <+: (scanElts line rowNumber st).2.out := by
  induction line generalizing rowNumber st with
  | nil => simp [scanElts]
  | cons elt rest ih =>
    have hf := scanElt_frame st rowNumber elt
    rcases h : scanElt st rowNumber elt with ⟨f, st1⟩
    rw [h] at hf
    simp only at hf
    cases f
    · simp only [scanElts, h]
      have := ih (rowNumber + elt.data.length + 1) st1
      exact ⟨this.1.trans hf.1, hf.2.trans this.2⟩
    · simp only [scanElts, h]
      have := ih rowNumber st1
      exact ⟨this.1.trans hf.1, hf.2.trans this.2⟩
    · simpa only [scanElts, h] using hf
    · simpa only [scanElts, h] using hf
    · simpa only [scanElts, h] using hf

/-- The processing of one line only adds tokens to the ones already sent, and
when it goes on to the next line the line number has grown by one. -/
theorem scanLine_frame (st : scanState) (line : List String) :
    st.out <+: (scanLine st line).2.out ∧
    ((scanLine st line).1 = .next → (scanLine st line).2.lineNumber = st.lineNumber + 1) := by
  unfold scanLine
  split_ifs
  · simp [scanState.nextLine]
  · have hf := scanElts_frame line 1 (st.setScanPrefixesDone (line.head? != some "@prefix"))
    rcases h : scanElts line 1 (st.setScanPrefixesDone (line.head? != some "@prefix"))
      with ⟨f, st1⟩
    rw [h] at hf
    simp only [scanState.setScanPrefixesDone] at hf
    cases f <;> simp [h, scanState.nextLine, hf.1, hf.2]

/-- The line loop only adds tokens to the ones already sent, and when every
line is shorter than `maxScanTokenSize` and the loop ends by exhaustion the line
number has grown by the number of lines. -/
theorem scanLines_frame (lines : List sourceLine) (st : scanState) :
    st.out <+: (scanLines lines st).2.out ∧
    ((∀ l ∈ lines, l.raw.data.length < maxScanTokenSize) →
      (scanLines lines st).1 = .next →
      (scanLines lines st).2.lineNumber = st.lineNumber + lines.length) := by
  induction lines generalizing st with
  | nil => simp [scanLines]
  | cons line rest ih =>
    by_cases hlong : maxScanTokenSize ≤ line.raw.data.length
    · refine ⟨by simp only [scanLines, if_pos hlong]; exact List.prefix_refl _, fun hs => ?_⟩
      have := hs line (List.mem_cons_self _ _)
      omega
    · have hf := scanLine_frame st line.segments
      rcases h : scanLine st line.segments with ⟨f, st1⟩
      rw [h] at hf
      simp only at hf
      cases f
      · simp only [scanLines, if_neg hlong, h]
        have := ih st1
        refine ⟨hf.1.trans this.1, fun hs hn => ?_⟩
        rw [this.2 (fun l hl => hs l (List.mem_cons_of_mem _ hl)) hn, hf.2 rfl,
          List.length_cons]
        omega
      all_goals
        simp only [scanLines, if_neg hlong, h]
        exact ⟨hf.1, fun _ hn => by cases hn⟩

/-- Scanning lines one group after the other: when every line of the first
group is shorter than `maxScanTokenSize` and the first group is exhausted, the
second group is scanned from the state that the first one leaves. -/
theorem scanLines_append (a b : List sourceLine) (st st1 : scanState)
    (hs : ∀ l ∈ a, l.raw.data.length < maxScanTokenSize)
    (h : scanLines a st = (.next, st1)) : scanLines (a ++ b) st = scanLines b st1 := by
  induction a generalizing st with
  | nil =>
    simp only [scanLines, Prod.mk.injEq, true_and] at h
    subst h
    rfl
  | cons line rest ih =>
    have hlong : ¬ maxScanTokenSize ≤ line.raw.data.length := by
      have := hs line (List.mem_cons_self _ _)
      omega
    rcases hl : scanLine st line.segments with ⟨f, st2⟩
    cases f
    · simp only [scanLines, if_neg hlong, hl, List.cons_append] at h ⊢
      exact ih st2 (fun l hm => hs l (List.mem_cons_of_mem _ hm)) h
    all_goals
      simp only [scanLines, if_neg hlong, hl, Prod.mk.injEq] at h
      cases h.1

/-- A line of `maxScanTokenSize` bytes or more ends the scan: no token is sent
for it or for the lines after it, and the outcome is that of an exhausted input. -/
theorem scanLines_too_long (line : sourceLine) (after : List sourceLine) (st : scanState)
    (hlong : maxScanTokenSize ≤ line.raw.data.length) :
    scanLines (line :: after) st = (.next, st) := by
  simp only [scanLines, if_pos hlong]

/-- The tokens sent while one line shorter than `maxScanTokenSize` is processed
are kept by the scan of the lines after it. -/
theorem scanLines_cons_out (line : sourceLine) (after : List sourceLine)
    (st : scanState) (hfit : line.raw.data.length < maxScanTokenSize) :
    (scanLine st line.segments).2.out <+: (scanLines (line :: after) st).2.out := by
  have hlong : ¬ maxScanTokenSize ≤ line.raw.data.length := by omega
  rcases h : scanLine st line.segments with ⟨f, s1⟩
  cases f
  · simp only [scanLines, if_neg hlong, h]
    exact (scanLines_frame after s1).1
  all_goals
    simp only [scanLines, if_neg hlong, h]
    exact List.prefix_refl _

/-- The tokens sent for a line that is not skipped are those sent by its
element loop. -/
theorem scanLine_out (st : scanState) (line : List String)
    (hskip : (line.length == 0 || line.head? == some "#") = false) :
    (scanLine st line).2.out
      = (scanElts line 1 (st.setScanPrefixesDone (line.head? != some "@prefix"))).2.out := by
  unfold scanLine
  simp only [hskip, Bool.false_eq_true, if_false]
  rcases h : scanElts line 1 (st.setScanPrefixesDone (line.head? != some "@prefix"))
    with ⟨f, s1⟩
  cases f <;> simp [scanState.nextLine]

/-- C14, as stated, fails: in the line `<a> #x <b>` the word `#x` matches none
of the shapes, so the rules of the claim make it Illegal, while the scan sends no
token for it and leaves the line: the only token sent is the URI `a`. -/
theorem scanTurtle_classify_counterexample :
    matchesNoShape "#x" = true ∧
    scanTurtle [⟨"<a> #x <b>", ["<a>", "#x", "<b>"]⟩] = (.next, [.newTokenURI "a"]) := by
  decide

/-- C14, amended: outside a prefix declaration line, `scanTurtle` sends for every
non-empty word-segment that does not start with `#` and is none of the one-byte
words `_`, double quote and single quote the token of the first rule that
applies, in the order End, Separator, URI, Literal, Datatype, Lang, BlankNode
after `_:`, BlankNode after `?`, PrefixedURI, Illegal. -/
theorem scanElt_classifies (st : scanState) (rowNumber : Nat) (elt : String)
    (hdone : st.scanPrefixesDone = true) (hne : elt ≠ "")
    (hhash : startsWithByte elt '#' = false) (h1 : elt ≠ "_")
    (h2 : elt ≠ String.singleton dquote) (h3 : elt ≠ String.singleton squote) :
    scanElt st rowNumber elt
      = (.next, st.send (classifyWord elt st.lineNumber rowNumber)) := by
  have e := byteIs_hash elt hne hhash
  have k := scanWord_eq_classify elt st.lineNumber rowNumber hne h1 h2 h3
  unfold scanElt
  rw [e]
  simp only [hdone, Bool.not_true, Bool.false_eq_true, if_false, k]

/-- Witness of the amended C14: the word `?x` at row 7 of line 3. -/
theorem scanElt_classifies_witness :
    scanElt ⟨[], "", "", true, 3⟩ 7 "?x"
      = (.next, ⟨[.newTokenBlankNode "x"], "", "", true, 3⟩) :=
  (scanElt_classifies ⟨[], "", "", true, 3⟩ 7 "?x" rfl (by decide) (by decide) (by decide)
    (by decide) (by decide)).trans (by decide)

/-- C15, as stated, fails: a first word starting with `#` matches none of the
shapes and gets no token, and a line after a malformed prefix declaration is
never scanned. -/
theorem scanTurtle_illegal_counterexample :
    (matchesNoShape "#foo" = true ∧ scanTurtle [⟨"#foo", ["#foo"]⟩] = (.next, [])) ∧
    (matchesNoShape "illegal_token" = true ∧
      scanTurtle [⟨"@prefix bad", ["@prefix", "bad"]⟩, ⟨"illegal_token", ["illegal_token"]⟩]
        = (.return_, [.newTokenIllegal "Unexpected token : bad" 1 1])) := by
  decide

/-- C15, amended: when each of the first `n` lines is shorter than
`maxScanTokenSize` (64 KiB), the scan of the first `n - 1` lines reaches line
`n`, and line `n` starts with a word `w` that matches none of the shapes, does
not start with `#` and is not the one-byte word `_`, the tokens sent by the scan
are those sent for the earlier lines followed by the Illegal token with the
message `Unexpected token when scanning 'w'`, line `n` and row 1, and then by the
tokens of the rest of the input. -/
theorem scanTurtle_illegal_first_word (before after : List sourceLine) (raw w : String)
    (rest : List String) (st : scanState)
    (hshort : ∀ l ∈ before, l.raw.data.length < maxScanTokenSize)
    (hfit : raw.data.length < maxScanTokenSize)
    (hbefore : scanLines before scanState.initial = (.next, st))
    (hne : w ≠ "") (hhash : startsWithByte w '#' = false) (h1 : w ≠ "_")
    (hshape : matchesNoShape w = true) :
    (st.out ++ [.newTokenIllegal ("Unexpected token when scanning '" ++ w ++ "'")
        (before.length + 1) 1])
      <+: (scanTurtle (before ++ ⟨raw, w :: rest⟩ :: after)).2 := by
  simp only [matchesNoShape, Bool.and_eq_true, Bool.not_eq_true'] at hshape
  obtain ⟨⟨⟨⟨⟨⟨⟨⟨s1, s2⟩, s3⟩, s4⟩, s5⟩, s6⟩, s7⟩, s8⟩, s9⟩ := hshape
  have hline : st.lineNumber = before.length + 1 := by
    have := (scanLines_frame before scanState.initial).2
    rw [hbefore] at this
    have := this hshort rfl
    simp only [scanState.initial] at this
    omega
  have h2 : w ≠ String.singleton dquote := by
    intro h
    subst h
    revert s4
    decide
  have h3 : w ≠ String.singleton squote := by
    intro h
    subst h
    revert s4
    decide
  have hw1 : w ≠ "#" := by
    intro h
    subst h
    revert hhash
    decide
  have hw2 : w ≠ "@prefix" := by
    intro h
    subst h
    revert s6
    decide
  have hskip : (((w :: rest).length == 0) || ((w :: rest).head? == some "#")) = false := by
    simp [hw1]
  have hcls : classifyWord w (before.length + 1) 1
      = .newTokenIllegal ("Unexpected token when scanning '" ++ w ++ "'")
          (before.length + 1) 1 := by
    simp [classifyWord, s1, s2, s3, s4, s5, s6, s7, s8, s9]
  have hdone : ((w :: rest).head? != some "@prefix") = true := by
    simp [hw2]
  have helt := scanElt_next (st.setScanPrefixesDone true) 1 w rfl hne hhash h1 h2 h3
  have hl : (st.setScanPrefixesDone true).lineNumber = before.length + 1 := hline
  rw [hl, hcls] at helt
  have p1 := (scanElts_frame rest (1 + w.data.length + 1)
    ((st.setScanPrefixesDone true).send (.newTokenIllegal
      ("Unexpected token when scanning '" ++ w ++ "'") (before.length + 1) 1))).2
  have p2 := scanLine_out st (w :: rest) hskip
  rw [hdone] at p2
  simp only [scanElts, helt] at p2
  have p3 := scanLines_cons_out ⟨raw, w :: rest⟩ after st hfit
  rw [p2] at p3
  simp only [scanTurtle,
    scanLines_append before (⟨raw, w :: rest⟩ :: after) _ st hshort hbefore]
  exact p1.trans p3

/-- Witness of the amended C15: the input `illegal_token` alone, a line of 13
bytes, yields the Illegal token for `illegal_token` at line 1, row 1. -/
theorem scanTurtle_illegal_first_word_witness :
    [rdfToken.newTokenIllegal "Unexpected token when scanning 'illegal_token'" 1 1]
      <+: (scanTurtle [⟨"illegal_token", ["illegal_token"]⟩]).2 :=
  scanTurtle_illegal_first_word [] [] "illegal_token" "illegal_token" [] scanState.initial
    (by simp) (by decide) rfl (by decide) (by decide) (by decide) (by decide)

/-- A word that ends with a given byte is not empty. -/
theorem ne_empty_of_ends (s : String) (c : Char) (h : endsWithByte s c = true) : s ≠ "" := by
  intro e
  subst e
  simp [endsWithByte] at h

/-- A word that starts with a given byte is not empty. -/
theorem ne_empty_of_starts (s : String) (c : Char) (h : startsWithByte s c = true) :
    s ≠ "" := by
  intro e
  subst e
  simp [startsWithByte] at h

/-- A word starts with one byte only. -/
theorem startsWithByte_unique (s : String) (a b : Char) (h : startsWithByte s a = true)
    (hab : a ≠ b) : startsWithByte s b = false := by
  obtain ⟨l⟩ := s
  rcases l with _ | ⟨c, cs⟩
  · simp [startsWithByte] at h
  · simp only [startsWithByte, List.head?_cons, beq_iff_eq, Option.some.injEq] at h
    subst h
    simp [startsWithByte, hab]

/-- While a prefix declaration is scanned, the word `@prefix` is passed over. -/
theorem scanElt_keyword (st : scanState) (rowNumber : Nat)
    (hdone : st.scanPrefixesDone = false) :
    scanElt st rowNumber "@prefix" = (.continue_, st) := by
  have e : byteIs "@prefix" 0 "#" = some false := by decide
  unfold scanElt
  rw [e]
  simp [hdone, scanPrefixElt]

/-- While a prefix declaration is scanned with an empty name slot, a word that
ends with a colon, other than the colon alone and not starting with `#`, fills
the name slot with the text before the colon. -/
theorem scanElt_name (st : scanState) (rowNumber : Nat) (name : String)
    (hdone : st.scanPrefixesDone = false) (hslot : st.prefixName = "")
    (hname : endsWithByte name ':' = true) (hcolon : name ≠ ":")
    (hhash : startsWithByte name '#' = false) :
    scanElt st rowNumber name = (.next, st.setPrefixName ⟨name.data.dropLast⟩) := by
  have hne := ne_empty_of_ends name ':' hname
  have e := byteIs_hash name hne hhash
  have k1 : name ≠ "@prefix" := by
    intro h
    subst h
    revert hname
    decide
  have k2 : name ≠ "." := by
    intro h
    subst h
    revert hname
    decide
  have hlen : 1 ≤ name.data.length := by
    obtain ⟨l⟩ := name
    rcases l with _ | ⟨c, cs⟩
    · exact absurd rfl hne
    · simp
  unfold scanElt
  rw [e]
  simp only [hdone, Bool.not_false, if_true]
  unfold scanPrefixElt
  have hlen2 : 1 ≤ name.length := hlen
  simp [k1, hcolon, k2, hslot, byteIs_last name ':' ":" hne rfl (by decide), hname,
    goSlice_init, hlen, hlen2]

/-- While a prefix declaration is scanned with the name slot filled and the
value slot empty, a word enclosed in `<` and `>` fills the value slot with its
inner text. -/
theorem scanElt_value (st : scanState) (rowNumber : Nat) (value : String)
    (hdone : st.scanPrefixesDone = false) (hname : st.prefixName ≠ "")
    (hslot : st.prefixValue = "") (hvalue : isURIWord value = true) :
    scanElt st rowNumber value = (.next, st.setPrefixValue (innerText value)) := by
  simp only [isURIWord, Bool.and_eq_true] at hvalue
  obtain ⟨hv1, hv2⟩ := hvalue
  have hne := ne_empty_of_starts value '<' hv1
  have e := byteIs_hash value hne (startsWithByte_unique value '<' '#' hv1 (by decide))
  have k1 : value ≠ "@prefix" := by
    intro h
    subst h
    revert hv1
    decide
  have k2 : value ≠ ":" := by
    intro h
    subst h
    revert hv1
    decide
  have k3 : value ≠ "." := by
    intro h
    subst h
    revert hv1
    decide
  have hlen := two_bytes_of_ends value '<' '>' hv1 hv2 (Or.inl (by decide))
  unfold scanElt
  rw [e]
  simp only [hdone, Bool.not_false, if_true]
  unfold scanPrefixElt
  have hlen2 : 2 ≤ value.length := hlen
  simp [k1, k2, k3, hname, hslot, byteIs_first value '<' "<" hne rfl (by decide),
    byteIs_last value '>' ">" hne rfl (by decide), hv1, hv2, goAnd, goSlice_inner, hlen,
    hlen2, innerText]

/-- While a prefix declaration is scanned, the word `.` sends the PrefixDecl
token of the two slots and empties them. -/
theorem scanElt_dot (st : scanState) (rowNumber : Nat)
    (hdone : st.scanPrefixesDone = false) :
    scanElt st rowNumber "."
      = (.next, ((st.send (.newTokenPrefix st.prefixName st.prefixValue)).setPrefixName
          "").setPrefixValue "") := by
  have e : byteIs "." 0 "#" = some false := by decide
  have k1 : ("." : String) ≠ "@prefix" := by decide
  have k2 : ("." : String) ≠ ":" := by decide
  unfold scanElt
  rw [e]
  simp only [hdone, Bool.not_false, if_true]
  unfold scanPrefixElt
  simp [k1, k2]

/-- The text before the final colon of a name word other than the colon alone
is not empty. -/
theorem name_text_ne_empty (name : String) (hname : endsWithByte name ':' = true)
    (hcolon : name ≠ ":") : (String.mk name.data.dropLast) ≠ "" := by
  obtain ⟨l⟩ := name
  rcases List.eq_nil_or_concat l with h | ⟨l0, c, h⟩
  · subst h
    simp [endsWithByte] at hname
  · subst h
    simp [endsWithByte] at hname
    subst hname
    intro e
    have e2 := congrArg String.data e
    simp only [List.concat_eq_append, List.dropLast_concat] at e2
    have e3 : l0 = [] := e2
    subst e3
    exact hcolon rfl

/-- C16: evaluation of the scan on the declaration of the empty prefix,
`@prefix : <http://example.org/> .`, followed by a statement. The name word `:`
ends with a colon and the value word is enclosed in `<` and `>`; the first case
of the prefix switch passes over the word `:` and leaves the name slot as it is,
empty, so the value word is read as a name, refused for its last byte, and the
scan returns after one Illegal token: no PrefixDecl is sent and the statement on
the next line is never scanned. After a name word, a word `:` is passed over in
the same way and the declaration is accepted. -/
theorem scanTurtle_prefix_empty_name :
    endsWithByte ":" ':' = true ∧ isURIWord "<http://example.org/>" = true ∧
    scanElt ⟨[], "", "", false, 1⟩ 1 ":" = (.continue_, ⟨[], "", "", false, 1⟩) ∧
    scanTurtle [⟨"@prefix : <http://example.org/> .",
                  ["@prefix", ":", "<http://example.org/>", "."]⟩,
                ⟨"<a> <b> <c> .", ["<a>", "<b>", "<c>", "."]⟩]
      = (.return_, [.newTokenIllegal "Unexpected token : <http://example.org/>" 1 1]) ∧
    scanTurtle [⟨"@prefix foo: : <http://x> .", ["@prefix", "foo:", ":", "<http://x>", "."]⟩]
      = (.next, [.newTokenPrefix "foo" "http://x"]) := by
  decide

/-- A well-formed prefix declaration with a non-empty name: when the name and
value slots are empty at the start of the line, for every name word ending in `:`
other than `:` itself and not starting with `#`, and every value word enclosed in
`<` and `>`, the line `@prefix`, name, value, `.` sends exactly one token,
PrefixDecl of the name without its final colon and of the value without its angle
brackets, and leaves both slots empty. -/
theorem scanLine_prefix_decl (st : scanState) (name value : String)
    (hn : st.prefixName = "") (hv : st.prefixValue = "")
    (hname : endsWithByte name ':' = true) (hcolon : name ≠ ":")
    (hhash : startsWithByte name '#' = false) (hvalue : isURIWord value = true) :
    scanLine st ["@prefix", name, value, "."]
      = (.next, ⟨st.out ++ [.newTokenPrefix ⟨name.data.dropLast⟩ (innerText value)],
          "", "", false, st.lineNumber + 1⟩) := by
  have hskip : ((["@prefix", name, value, "."].length == 0) ||
      (["@prefix", name, value, "."].head? == some "#")) = false := rfl
  have hdone : (["@prefix", name, value, "."].head? != some "@prefix") = false := rfl
  have s1 := scanElt_keyword (st.setScanPrefixesDone false) 1 rfl
  have s2 := scanElt_name (st.setScanPrefixesDone false) 1 name rfl hn hname hcolon hhash
  have s3 := scanElt_value ((st.setScanPrefixesDone false).setPrefixName ⟨name.data.dropLast⟩)
    (1 + name.data.length + 1) value rfl (name_text_ne_empty name hname hcolon) hv hvalue
  have s4 := scanElt_dot
    (((st.setScanPrefixesDone false).setPrefixName ⟨name.data.dropLast⟩).setPrefixValue
      (innerText value)) (1 + name.data.length + 1 + value.data.length + 1) rfl
  unfold scanLine
  simp only [hskip, hdone, Bool.false_eq_true, if_false, scanElts, s1, s2, s3, s4]
  simp [scanState.nextLine, scanState.send, scanState.setPrefixName, scanState.setPrefixValue,
    scanState.setScanPrefixesDone]

/-- The declaration of the prefix `foaf` as the first line of the input. -/
theorem scanLine_prefix_decl_foaf :
    scanLine scanState.initial ["@prefix", "foaf:", "<http://xmlns.com/foaf/0.1/>", "."]
      = (.next, ⟨[.newTokenPrefix "foaf" "http://xmlns.com/foaf/0.1/"], "", "", false, 2⟩) :=
  (scanLine_prefix_decl scanState.initial "foaf:" "<http://xmlns.com/foaf/0.1/>" rfl rfl
    (by decide) (by decide) (by decide) (by decide)).trans (by decide)

/-- C17: evaluation of the scan on prefix declarations whose value word has only
one of the two angle brackets. The word `<http://x` is not enclosed in `<` and `>`;
with the name slot filled and the value slot empty it sends no Illegal token, it
fills the value slot with `http://` and the following `.` sends a PrefixDecl. The
word `http://x>` is accepted in the same way. -/
theorem scanTurtle_prefix_value_unchecked :
    isURIWord "<http://x" = false ∧
    scanElt ⟨[], "foo", "", false, 1⟩ 6 "<http://x"
      = (.next, ⟨[], "foo", "http://", false, 1⟩) ∧
    scanTurtle [⟨"@prefix foo: <http://x .", ["@prefix", "foo:", "<http://x", "."]⟩]
      = (.next, [.newTokenPrefix "foo" "http://"]) ∧
    isURIWord "http://x>" = false ∧
    scanTurtle [⟨"@prefix foo: http://x> .", ["@prefix", "foo:", "http://x>", "."]⟩]
      = (.next, [.newTokenPrefix "foo" "ttp://x"]) := by
  decide

/-- C18: evaluation of the scan on one-byte words. The word `_` passes the test
`string(elt[0]) == "_"` and the index `elt[1]` is out of range; a quote alone
starts and ends with a quote and the slice `elt[1 : len(elt)-1]` has bounds
`1 > 0`; in a prefix declaration with the name slot filled the word `<` is not
refused and the same slice is taken. Each scan ends in a runtime panic, after the
tokens of the words before it. -/
theorem scanTurtle_one_byte_words :
    scanTurtle [⟨"_", ["_"]⟩] = (.panic_, []) ∧
    scanTurtle [⟨"\"", ["\""]⟩] = (.panic_, []) ∧
    scanTurtle [⟨"'", ["'"]⟩] = (.panic_, []) ∧
    scanTurtle [⟨"<a> <b> _", ["<a>", "<b>", "_"]⟩]
      = (.panic_, [.newTokenURI "a", .newTokenURI "b"]) ∧
    scanTurtle [⟨"@prefix foo: <", ["@prefix", "foo:", "<"]⟩] = (.panic_, []) := by
  decide

/-! ## Theorems: list graph, `Add` -/

/-- C19: after `g.Add(t)` the stored sequence is the previous one, unchanged and
in the same order, followed by `t`; after `Add(t)` on a new graph the first stored
triple is strictly equal to `t`. -/
theorem listGraph_add_spec (g : ListGraph) (t : Triple) :
    (g.Add t).triples = g.triples ++ [t] ∧
    (g.Add t).triples.length = g.triples.length + 1 ∧
    (g.Add t).triples.take g.triples.length = g.triples ∧
    (g.Add t).triples[g.triples.length]? = some t ∧
    (∃ first : Triple, (NewListGraph.Add t).triples[0]? = some first ∧
      first.Equals t = (true, none)) := by
  refine ⟨rfl, ?_, ?_, ?_, ?_⟩
  · simp [ListGraph.Add]
  · simp [ListGraph.Add]
  · simp [ListGraph.Add]
  · exact ⟨t, by simp [ListGraph.Add, NewListGraph], triple_equals_self t⟩

/-! ## Theorems: N-Triples `parseNode` -/

/-- The slice `s[1 : len(s)-2]` is in range from three bytes on. -/
theorem goSlice_inner_two (s : String) :
    goSlice s 1 (goLen s - 2)
      = if 3 ≤ s.data.length then some ⟨(s.data.drop 1).take (s.data.length - 3)⟩
        else none := by
  obtain ⟨l⟩ := s
  by_cases h : 3 ≤ l.length
  · have h0 : (1 : Int) ≤ (l.length : Int) - 2 := by omega
    have h1 : ((l.length : Int) - 2 - 1).toNat = l.length - 3 := by omega
    have h2 : (l.length : Int) - 2 ≤ (l.length : Int) := by omega
    simp [goSlice, goLen, h, h0, h1, h2]
  · have h0 : ¬ (1 : Int) ≤ (l.length : Int) - 2 := by omega
    simp [goSlice, goLen, h, h0]

/-- The bytes of a text put between two delimiters. -/
theorem enclosed_data (a b : Char) (v : String) :
    (String.singleton a ++ v ++ String.singleton b).data = a :: (v.data ++ [b]) := by
  simp [String.singleton]

/-- What `parseNode` cuts out of a text put between two delimiters: the text
without its last byte, and nothing in range when the text is empty. -/
theorem goSlice_enclosed (a b : Char) (v : String) :
    goSlice (String.singleton a ++ v ++ String.singleton b) 1
        (goLen (String.singleton a ++ v ++ String.singleton b) - 2)
      = if v = "" then none else some ⟨v.data.dropLast⟩ := by
  rw [goSlice_inner_two, enclosed_data]
  obtain ⟨l⟩ := v
  rcases List.eq_nil_or_concat l with h | ⟨l0, c, h⟩
  · subst h
    have : (String.mk []) = "" := rfl
    simp [this]
  · subst h
    have hne : ¬ (String.mk (l0 ++ [c])) = "" := by
      intro e
      have := congrArg (fun s => s.data.length) e
      simp at this
    simp [hne]

/-- A text put between two delimiters starts with the first one. -/
theorem starts_enclosed (a b : Char) (v : String) :
    startsWithByte (String.singleton a ++ v ++ String.singleton b) a = true := by
  unfold startsWithByte
  rw [enclosed_data]
  simp

/-- A text put between two delimiters ends with the second one. -/
theorem ends_enclosed (a b : Char) (v : String) :
    endsWithByte (String.singleton a ++ v ++ String.singleton b) b = true := by
  unfold endsWithByte
  rw [enclosed_data, ← List.cons_append, List.getLast?_append]
  simp

/-- A text put between two delimiters is not empty. -/
theorem enclosed_ne_empty (a b : Char) (v : String) :
    (String.singleton a ++ v ++ String.singleton b) ≠ "" := by
  intro e
  have := congrArg (fun s => s.data.length) e
  simp [String.singleton] at this

/-- C13: what `parseNode` returns on a text `v` put between `<` and `>` or between
double quotes. The slice `elt[1 : len(elt)-2]` removes the last byte of `v` with
the closing delimiter, so the node holds `v` without its last byte, and for an
empty `v` the bounds `1 > 0` are a runtime panic. The URI
`<http://xmlns.com/foaf/0.1/Document>` parses to `http://xmlns.com/foaf/0.1/Documen`. -/
theorem parseNode_enclosed (v : String) :
    parseNode ("<" ++ v ++ ">")
      = (if v = "" then none else some (some (.uri ⟨⟨v.data.dropLast⟩⟩), none)) ∧
    parseNode ("\"" ++ v ++ "\"")
      = (if v = "" then none else some (some (.literal ⟨⟨v.data.dropLast⟩⟩), none)) ∧
    parseNode "<http://xmlns.com/foaf/0.1/Document>"
      = some (some (.uri ⟨"http://xmlns.com/foaf/0.1/Documen"⟩), none) := by
  refine ⟨?_, ?_, by decide⟩
  · rw [show ("<" ++ v ++ ">") = String.singleton '<' ++ v ++ String.singleton '>' from rfl]
    have hs := enclosed_ne_empty '<' '>' v
    unfold parseNode
    rw [byteIs_first _ '<' "<" hs rfl (by decide), byteIs_last _ '>' ">" hs rfl (by decide),
      starts_enclosed, ends_enclosed]
    simp only [goAnd, goIf]
    rw [goSlice_enclosed]
    by_cases hv : v = "" <;> simp [hv, NewURI]
  · rw [show ("\"" ++ v ++ "\"")
      = String.singleton dquote ++ v ++ String.singleton dquote from rfl]
    have hs := enclosed_ne_empty dquote dquote v
    have h0 : startsWithByte (String.singleton dquote ++ v ++ String.singleton dquote) '<'
        = false :=
      startsWithByte_unique _ dquote '<' (starts_enclosed dquote dquote v) (by decide)
    unfold parseNode
    rw [byteIs_first _ '<' "<" hs rfl (by decide), byteIs_last _ '>' ">" hs rfl (by decide),
      byteIs_first _ dquote "\"" hs rfl (by decide),
      byteIs_last _ dquote "\"" hs rfl (by decide),
      h0, starts_enclosed, ends_enclosed]
    simp only [goAnd, goIf]
    rw [goSlice_enclosed]
    by_cases hv : v = "" <;> simp [hv, NewLiteral]

/-- C20: evaluation of `parseNode` on short inputs. On the empty string the index
`elt[0]` is out of range; on `_` the index `elt[1]` is out of range; on a double
quote alone and on `<>` the slice `elt[1 : len(elt)-2]` has bounds out of range.
Each call ends in a runtime panic, where an input that is none of the three
shapes is otherwise answered by an error. -/
theorem parseNode_short_inputs :
    parseNode "" = none ∧ parseNode "_" = none ∧ parseNode "\"" = none ∧
    parseNode "<>" = none ∧
    parseNode "abc" = some (none, some "Error : cannot parse abc into a RDF Node") := by
  decide

/-! ## Theorems: symmetry of `Equivalent`, repeated variables, `executeWith` again -/

/-- C24: node-level `Equivalent` is symmetric: `a.Equivalent(b)` and
`b.Equivalent(a)` return the same boolean, and one returns an error exactly when
the other does. -/
theorem node_equivalent_symm (a b : Node) :
    (a.Equivalent b).1 = (b.Equivalent a).1 ∧
    (a.Equivalent b).2.isSome = (b.Equivalent a).2.isSome := by
  rcases a with ⟨⟨x⟩⟩ | ⟨⟨x⟩⟩ | ⟨⟨x⟩⟩ <;> rcases b with ⟨⟨y⟩⟩ | ⟨⟨y⟩⟩ | ⟨⟨y⟩⟩ <;>
    simp [Node.Equivalent, URI.Equals, URI.Equivalent, Literal.Equals, Literal.Equivalent,
      BlankNode.Equivalent, Node.asURI, Node.asLiteral, Node.asBlankNode] <;>
    (by_cases h : x = y
     · simp [h]
     · simp only [h, false_iff]
       exact fun e => h e.symm)

/-- The group built by the loop body of `execute` reads at every key the term at
the last position of the pattern that holds this variable. -/
theorem executeBody_last (p t : Triple) (k : String) :
    (bgpNode.executeBody p.Subject.asBlankNode.1 p.Predicate.asBlankNode.1
        p.Object.asBlankNode.1 p.Subject.asBlankNode.2 p.Predicate.asBlankNode.2
        p.Object.asBlankNode.2 t).get k = lastBinding p t k := by
  rw [executeBody_get]
  obtain ⟨ps, pp, po⟩ := p
  rcases ps with ⟨⟨a⟩⟩ | ⟨⟨a⟩⟩ | ⟨⟨a⟩⟩ <;> rcases pp with ⟨⟨b⟩⟩ | ⟨⟨b⟩⟩ | ⟨⟨b⟩⟩ <;>
    rcases po with ⟨⟨c⟩⟩ | ⟨⟨c⟩⟩ | ⟨⟨c⟩⟩ <;>
    simp [Node.asBlankNode, lastBinding]

/-- C25: whatever the variables of the pattern, also when one name stands at
several BlankNode positions, `execute` yields one group per triple returned by
`Filter`, in the same order, and the group reads at every key the term at the last
position, in the order subject, predicate, object, that holds this variable. For
the pattern `(?x, <knows>, ?x)` on the graph `(<Tom>, <knows>, <Ann>)` the triple is
matched although `<Tom>` and `<Ann>` differ, and the group is `x ↦ <Ann>`. -/
theorem bgp_execute_repeated_variable (n : bgpNode) :
    n.execute.length
      = (n.graph.Filter n.pattern.Subject n.pattern.Predicate n.pattern.Object).length ∧
    List.Forall₂ (fun t group => ∀ k : String, group.get k = lastBinding n.pattern t k)
      (n.graph.Filter n.pattern.Subject n.pattern.Predicate n.pattern.Object) n.execute ∧
    (newBgpNode (NewTriple (.blank ⟨"x"⟩) (.uri ⟨"knows"⟩) (.blank ⟨"x"⟩))
        (ListGraph.mk [NewTriple (.uri ⟨"Tom"⟩) (.uri ⟨"knows"⟩) (.uri ⟨"Ann"⟩)]).toGraph).execute
      = [⟨[("x", .uri ⟨"Ann"⟩)]⟩] := by
  refine ⟨?_, ?_, by decide⟩
  · simp [execute_eq_map]
  · rw [execute_eq_map, List.forall₂_map_right_iff, List.forall₂_same]
    intro t _ k
    exact executeBody_last n.pattern t k

/-- With an empty incoming group the loop body of `executeWith` builds the group
that the loop body of `execute` builds. -/
theorem executeWithBody_empty (subject predicate object : BlankNode)
    (freeSubject freePredicate freeObject : Bool) (t : Triple) :
    bgpNode.executeWithBody ⟨[]⟩ subject predicate object freeSubject freePredicate freeObject t
      = bgpNode.executeBody subject predicate object freeSubject freePredicate freeObject t := by
  rfl

/-- C22: `executeWith` on the empty bindings group. The `range` loop has no entry
to run on, the three query nodes stay nil and the graph is queried with
`Filter(nil, nil, nil)` where `execute` queries it with the nodes of the pattern;
the groups are then built as `execute` builds them. On the graph
`(<Tom>, <age>, "22")`, `(<Ann>, <age>, "30")` with the pattern `(?x, <age>, ?y)`,
`execute` yields two groups and `executeWith` ends in a runtime panic. -/
theorem bgp_executeWith_empty (n : bgpNode) :
    n.executeWith NewBindingsGroup
      = n.graph.FilterNil.map (fun triples => triples.map
          (bgpNode.executeBody n.pattern.Subject.asBlankNode.1 n.pattern.Predicate.asBlankNode.1
            n.pattern.Object.asBlankNode.1 n.pattern.Subject.asBlankNode.2
            n.pattern.Predicate.asBlankNode.2 n.pattern.Object.asBlankNode.2)) ∧
    n.execute
      = (n.graph.Filter n.pattern.Subject n.pattern.Predicate n.pattern.Object).map
          (bgpNode.executeBody n.pattern.Subject.asBlankNode.1 n.pattern.Predicate.asBlankNode.1
            n.pattern.Object.asBlankNode.1 n.pattern.Subject.asBlankNode.2
            n.pattern.Predicate.asBlankNode.2 n.pattern.Object.asBlankNode.2) ∧
    (newBgpNode agePattern tomAnnGraph.toGraph).executeWith NewBindingsGroup = none ∧
    (newBgpNode agePattern tomAnnGraph.toGraph).execute
      = [⟨[("x", .uri ⟨"Tom"⟩), ("y", .literal ⟨"22"⟩)]⟩,
         ⟨[("x", .uri ⟨"Ann"⟩), ("y", .literal ⟨"30"⟩)]⟩] := by
  refine ⟨?_, execute_eq_map n, by decide, by decide⟩
  unfold bgpNode.executeWith
  simp only [NewBindingsGroup, bgpNode.completeLoop, executeWithLoop_eq, List.nil_append]
  cases h : n.graph.FilterNil with
  | none => rfl
  | some ts =>
    simp only [Option.map_some', Option.some.injEq]
    exact List.map_congr_left (fun t _ => executeWithBody_empty _ _ _ _ _ _ t)

/-- C23: `executeWith` on the two enumeration orders of the incoming group
`x ↦ <Tom>, z ↦ <Foo>`, with the pattern `(?x, <age>, ?y)` on the graph
`(<Tom>, <age>, "22")`, `(<Ann>, <age>, "30")`. Enumerated `z` then `x`, the query
subject is `<Tom>` and one group is yielded; enumerated `x` then `z`, the entry `z`
resets the query subject to `?x` and two groups are yielded. -/
theorem bgp_executeWith_order :
    List.Perm [("z", Node.uri ⟨"Foo"⟩), ("x", Node.uri ⟨"Tom"⟩)]
      [("x", Node.uri ⟨"Tom"⟩), ("z", Node.uri ⟨"Foo"⟩)] ∧
    (bgpNode.completeLoop (newBgpNode agePattern tomAnnGraph.toGraph) ⟨"x"⟩ ⟨""⟩ ⟨"y"⟩
        [("z", .uri ⟨"Foo"⟩), ("x", .uri ⟨"Tom"⟩)] ⟨none, none, none, true, false, true⟩).querySubj
      = some (.uri ⟨"Tom"⟩) ∧
    (bgpNode.completeLoop (newBgpNode agePattern tomAnnGraph.toGraph) ⟨"x"⟩ ⟨""⟩ ⟨"y"⟩
        [("x", .uri ⟨"Tom"⟩), ("z", .uri ⟨"Foo"⟩)] ⟨none, none, none, true, false, true⟩).querySubj
      = some (.blank ⟨"x"⟩) ∧
    (newBgpNode agePattern tomAnnGraph.toGraph).executeWith
        ⟨[("z", .uri ⟨"Foo"⟩), ("x", .uri ⟨"Tom"⟩)]⟩
      = some [⟨[("z", .uri ⟨"Foo"⟩), ("x", .uri ⟨"Tom"⟩), ("y", .literal ⟨"22"⟩)]⟩] ∧
    (newBgpNode agePattern tomAnnGraph.toGraph).executeWith
        ⟨[("x", .uri ⟨"Tom"⟩), ("z", .uri ⟨"Foo"⟩)]⟩
      = some [⟨[("x", .uri ⟨"Tom"⟩), ("z", .uri ⟨"Foo"⟩), ("y", .literal ⟨"22"⟩)]⟩,
              ⟨[("x", .uri ⟨"Tom"⟩), ("z", .uri ⟨"Foo"⟩), ("y", .literal ⟨"30"⟩)]⟩] := by
  refine ⟨List.Perm.swap _ _ _, by decide, by decide, by decide, by decide⟩

/-! ## Theorems: statement interpreter -/

end Joseki
